import Mathlib

/-!
# Noise: generator and modifier modules, colour gradients and noise maps

A shallow embedding of the noise modules of the library (`Perlin`, `Billow`,
`Const`, `Clamp`, `Exponent`) together with the properties of their parameter
setters and of their evaluation functions, and of the utility classes
`GradientColor` and `NoiseMap` together with the properties of their
operations, and of the byte encoders, the line width of the BMP writer and
the neighbour offsets of the renderers of noiseutils.cpp.

Conventions of the embedding.

* A C++ `double` or `float` is its value, a rational number (`Double`,
  `Float32`); NaN and the infinities are outside the model. In the noise
  modules and the noise maps the values are compared, stored and copied, and
  the arithmetic of the modules is exact. In `GradientColor`, whose result is
  truncated to 8 bits, every operation is rounded as the hardware rounds it:
  to binary64 for a `double` and to binary32 for a `float` (`toFloat64`,
  `toFloat32`), to nearest with ties to even, each operation in the precision
  of its type.
* An array is a list; a loop over an array is a recursion on the number of
  iterations that remain, with the index as an argument.
* A C++ `int` is an `Int`; none of the functions below does arithmetic on an
  `int` that could leave the 32-bit range, apart from `seed + octave`, which
  is taken as written.
* A `void` member function that may throw is a function from the receiver
  (and the arguments) to a `Call`: the exception that left the call, if any,
  and the receiver as it is when control leaves the call.
* Where a member function takes a reference to another object of its class
  (the copy of a `NoiseMap`), the objects live in a store indexed by address
  and the receiver and the reference are addresses, which may be equal.
-/

set_option linter.dupNamespace false

namespace noise

/-- A C++ `double`: its value, a rational number. -/
abbrev Double := ℚ

/-- Modelled from the spec: the exception classes of `exception.h`, which the
modules throw and which is not among the sources. -/
inductive Exception where
  | ExceptionInvalidParam
  | ExceptionNoModule
  | ExceptionOutOfMemory
  | ExceptionUnknown
  deriving DecidableEq, Repr

/-- Modelled from the spec: the enumeration `noise::NoiseQuality`
(`Fast`, `Std`, `Best`), declared in a header that is not among the sources. -/
inductive NoiseQuality where
  | QUALITY_FAST
  | QUALITY_STD
  | QUALITY_BEST
  deriving DecidableEq, Repr

/-- How a call of a `void` member function ends: `thrown` is the exception
that left the call (`none` for a normal return) and `self` is the receiver at
that moment. -/
structure Call (σ : Type) where
  thrown : Option Exception
  self : σ

/-- Modelled from the spec: the coherent-noise primitive
`CoherentNoise3D (x, y, z, seed, quality)`, which is not among the sources;
the generators take it as a parameter. -/
abbrev CoherentNoise := Double → Double → Double → Int → NoiseQuality → Double

namespace module

/-- Modelled from the spec: the abstract base class `Module` (modulebase.h is
not among the sources). A module holds non-owning references to its source
modules and reads them through their virtual `GetValue` only, so a bound
source module is its evaluation function. -/
structure Module where
  GetValue : Double → Double → Double → Double

/-! ## perlin.h -/

def DEFAULT_PERLIN_FREQUENCY : Double := 1.0

def DEFAULT_PERLIN_LACUNARITY : Double := 2.0

def DEFAULT_PERLIN_OCTAVE_COUNT : Int := 6

def DEFAULT_PERLIN_PERSISTENCE : Double := 0.5

def DEFAULT_PERLIN_QUALITY : NoiseQuality := NoiseQuality.QUALITY_STD

def DEFAULT_PERLIN_SEED : Int := 0

def PERLIN_MAX_OCTAVE : Int := 30

/-- The data members of `noise::module::Perlin`. -/
structure Perlin where
  m_frequency : Double
  m_lacunarity : Double
  m_noiseQuality : NoiseQuality
  m_octaveCount : Int
  m_persistence : Double
  m_seed : Int
  deriving DecidableEq

namespace Perlin

/-- Modelled from the spec: the constructor `Perlin::Perlin ()`, whose body
(perlin.cpp) is not among the sources; the header documents that every
parameter is set to its `DEFAULT_PERLIN_*` constant. -/
def Perlin : Perlin :=
  { m_frequency := DEFAULT_PERLIN_FREQUENCY
    m_lacunarity := DEFAULT_PERLIN_LACUNARITY
    m_noiseQuality := DEFAULT_PERLIN_QUALITY
    m_octaveCount := DEFAULT_PERLIN_OCTAVE_COUNT
    m_persistence := DEFAULT_PERLIN_PERSISTENCE
    m_seed := DEFAULT_PERLIN_SEED }

def GetFrequency (self : module.Perlin) : Double := self.m_frequency

def GetLacunarity (self : module.Perlin) : Double := self.m_lacunarity

def GetNoiseQuality (self : module.Perlin) : NoiseQuality := self.m_noiseQuality

def GetOctaveCount (self : module.Perlin) : Int := self.m_octaveCount

def GetPersistence (self : module.Perlin) : Double := self.m_persistence

def GetSeed (self : module.Perlin) : Int := self.m_seed

def GetSourceModuleCount (_self : module.Perlin) : Int := 0

def SetFrequency (self : module.Perlin) (frequency : Double) : Call module.Perlin :=
  ⟨none, { self with m_frequency := frequency }⟩

def SetLacunarity (self : module.Perlin) (lacunarity : Double) : Call module.Perlin :=
  ⟨none, { self with m_lacunarity := lacunarity }⟩

def SetNoiseQuality (self : module.Perlin) (noiseQuality : NoiseQuality) :
    Call module.Perlin :=
  ⟨none, { self with m_noiseQuality := noiseQuality }⟩

/-- The setter `Perlin::SetOctaveCount`: the `throw` precedes the assignment. -/
def SetOctaveCount (self : module.Perlin) (octaveCount : Int) : Call module.Perlin :=
  if octaveCount < 1 ∨ octaveCount > PERLIN_MAX_OCTAVE then
    ⟨some Exception.ExceptionInvalidParam, self⟩
  else
    ⟨none, { self with m_octaveCount := octaveCount }⟩

def SetPersistence (self : module.Perlin) (persistence : Double) : Call module.Perlin :=
  ⟨none, { self with m_persistence := persistence }⟩

def SetSeed (self : module.Perlin) (seed : Int) : Call module.Perlin :=
  ⟨none, { self with m_seed := seed }⟩

/-- Modelled from the spec: the octave loop of `Perlin::GetValue` (perlin.cpp
is not among the sources), with `remaining` octaves still to add. Octave
`curOctave` samples the primitive at the coordinates scaled by the current
frequency, with seed `m_seed + curOctave`, weights the sample by the current
amplitude and adds it to the accumulator `value`; the next octave has the
frequency multiplied by the lacunarity and the amplitude multiplied by the
persistence. -/
def octaveLoop (noise3D : CoherentNoise) (self : module.Perlin) (x y z : Double) :
    Nat → Int → Double → Double → Double → Double
  | 0, _, value, _, _ => value
  | remaining + 1, curOctave, value, curFrequency, curPersistence =>
    let signal := noise3D (curFrequency * x) (curFrequency * y) (curFrequency * z)
      (self.m_seed + curOctave) self.m_noiseQuality
    octaveLoop noise3D self x y z remaining (curOctave + 1)
      (value + signal * curPersistence)
      (curFrequency * self.m_lacunarity) (curPersistence * self.m_persistence)

/-- Modelled from the spec: `Perlin::GetValue` (perlin.cpp is not among the
sources). The loop `for (curOctave = 0; curOctave < m_octaveCount; curOctave++)`
starts with an empty accumulator, the frequency of the first octave and the
amplitude 1.0, and the accumulator is returned. -/
def GetValue (noise3D : CoherentNoise) (self : module.Perlin) (x y z : Double) : Double :=
  octaveLoop noise3D self x y z self.m_octaveCount.toNat 0 0 self.m_frequency 1

/-- A call of one of the setters of `Perlin`, with its argument. -/
inductive SetterCall where
  | SetFrequency (frequency : Double)
  | SetLacunarity (lacunarity : Double)
  | SetNoiseQuality (noiseQuality : NoiseQuality)
  | SetOctaveCount (octaveCount : Int)
  | SetPersistence (persistence : Double)
  | SetSeed (seed : Int)

/-- Dispatch of a setter call to the member function. -/
def call (self : module.Perlin) : SetterCall → Call module.Perlin
  | .SetFrequency frequency => self.SetFrequency frequency
  | .SetLacunarity lacunarity => self.SetLacunarity lacunarity
  | .SetNoiseQuality noiseQuality => self.SetNoiseQuality noiseQuality
  | .SetOctaveCount octaveCount => self.SetOctaveCount octaveCount
  | .SetPersistence persistence => self.SetPersistence persistence
  | .SetSeed seed => self.SetSeed seed

/-- The node after a sequence of setter calls, each of which may return or
throw (the caller catches the exception and goes on). -/
def run (self : module.Perlin) : List SetterCall → module.Perlin
  | [] => self
  | c :: cs => run (call self c).self cs

end Perlin

/-! ## billow.h -/

def DEFAULT_BILLOW_FREQUENCY : Double := 1.0

def DEFAULT_BILLOW_LACUNARITY : Double := 2.0

def DEFAULT_BILLOW_OCTAVE_COUNT : Int := 6

def DEFAULT_BILLOW_PERSISTENCE : Double := 0.5

def DEFAULT_BILLOW_QUALITY : NoiseQuality := NoiseQuality.QUALITY_STD

def DEFAULT_BILLOW_SEED : Int := 0

def BILLOW_MAX_OCTAVE : Int := 30

/-- The data members of `noise::module::Billow`. -/
structure Billow where
  m_frequency : Double
  m_lacunarity : Double
  m_noiseQuality : NoiseQuality
  m_octaveCount : Int
  m_persistence : Double
  m_seed : Int
  deriving DecidableEq

namespace Billow

/-- Modelled from the spec: the constructor `Billow::Billow ()`, whose body
(billow.cpp) is not among the sources; the header documents that every
parameter is set to its `DEFAULT_BILLOW_*` constant. -/
def Billow : Billow :=
  { m_frequency := DEFAULT_BILLOW_FREQUENCY
    m_lacunarity := DEFAULT_BILLOW_LACUNARITY
    m_noiseQuality := DEFAULT_BILLOW_QUALITY
    m_octaveCount := DEFAULT_BILLOW_OCTAVE_COUNT
    m_persistence := DEFAULT_BILLOW_PERSISTENCE
    m_seed := DEFAULT_BILLOW_SEED }

def GetFrequency (self : module.Billow) : Double := self.m_frequency

def GetLacunarity (self : module.Billow) : Double := self.m_lacunarity

def GetNoiseQuality (self : module.Billow) : NoiseQuality := self.m_noiseQuality

def GetOctaveCount (self : module.Billow) : Int := self.m_octaveCount

def GetPersistence (self : module.Billow) : Double := self.m_persistence

def GetSeed (self : module.Billow) : Int := self.m_seed

def GetSourceModuleCount (_self : module.Billow) : Int := 0

def SetFrequency (self : module.Billow) (frequency : Double) : Call module.Billow :=
  ⟨none, { self with m_frequency := frequency }⟩

def SetLacunarity (self : module.Billow) (lacunarity : Double) : Call module.Billow :=
  ⟨none, { self with m_lacunarity := lacunarity }⟩

def SetNoiseQuality (self : module.Billow) (noiseQuality : NoiseQuality) :
    Call module.Billow :=
  ⟨none, { self with m_noiseQuality := noiseQuality }⟩

/-- The setter `Billow::SetOctaveCount`: the `throw` precedes the assignment. -/
def SetOctaveCount (self : module.Billow) (octaveCount : Int) : Call module.Billow :=
  if octaveCount < 1 ∨ octaveCount > BILLOW_MAX_OCTAVE then
    ⟨some Exception.ExceptionInvalidParam, self⟩
  else
    ⟨none, { self with m_octaveCount := octaveCount }⟩

def SetPersistence (self : module.Billow) (persistence : Double) : Call module.Billow :=
  ⟨none, { self with m_persistence := persistence }⟩

def SetSeed (self : module.Billow) (seed : Int) : Call module.Billow :=
  ⟨none, { self with m_seed := seed }⟩

/-- A call of one of the setters of `Billow`, with its argument. -/
inductive SetterCall where
  | SetFrequency (frequency : Double)
  | SetLacunarity (lacunarity : Double)
  | SetNoiseQuality (noiseQuality : NoiseQuality)
  | SetOctaveCount (octaveCount : Int)
  | SetPersistence (persistence : Double)
  | SetSeed (seed : Int)

/-- Dispatch of a setter call to the member function. -/
def call (self : module.Billow) : SetterCall → Call module.Billow
  | .SetFrequency frequency => self.SetFrequency frequency
  | .SetLacunarity lacunarity => self.SetLacunarity lacunarity
  | .SetNoiseQuality noiseQuality => self.SetNoiseQuality noiseQuality
  | .SetOctaveCount octaveCount => self.SetOctaveCount octaveCount
  | .SetPersistence persistence => self.SetPersistence persistence
  | .SetSeed seed => self.SetSeed seed

/-- The node after a sequence of setter calls, each of which may return or
throw (the caller catches the exception and goes on). -/
def run (self : module.Billow) : List SetterCall → module.Billow
  | [] => self
  | c :: cs => run (call self c).self cs

/-- Modelled from the spec: the transform that `Billow::GetValue` applies to
each octave's sample before weighting, `2 * |sample| - 1` (billow.cpp is not
among the sources). -/
def octaveTransform (signal : Double) : Double :=
  2 * |signal| - 1

/-- Modelled from the spec: the octave loop of `Billow::GetValue` (billow.cpp
is not among the sources): the octave loop of Perlin, in which each sample is
transformed by `2 * |sample| - 1` before it is weighted and added. -/
def octaveLoop (noise3D : CoherentNoise) (self : module.Billow) (x y z : Double) :
    Nat → Int → Double → Double → Double → Double
  | 0, _, value, _, _ => value
  | remaining + 1, curOctave, value, curFrequency, curPersistence =>
    let signal := noise3D (curFrequency * x) (curFrequency * y) (curFrequency * z)
      (self.m_seed + curOctave) self.m_noiseQuality
    let signal := octaveTransform signal
    octaveLoop noise3D self x y z remaining (curOctave + 1)
      (value + signal * curPersistence)
      (curFrequency * self.m_lacunarity) (curPersistence * self.m_persistence)

/-- Modelled from the spec: `Billow::GetValue` (billow.cpp is not among the
sources), the loop over `m_octaveCount` octaves from an empty accumulator,
the frequency of the first octave and the amplitude 1.0. -/
def GetValue (noise3D : CoherentNoise) (self : module.Billow) (x y z : Double) : Double :=
  octaveLoop noise3D self x y z self.m_octaveCount.toNat 0 0 self.m_frequency 1

end Billow

/-! ## const.h -/

def DEFAULT_CONST_VALUE : Double := 0.0

/-- The data member of `noise::module::Const`. -/
structure Const where
  m_constValue : Double
  deriving DecidableEq

namespace Const

/-- Modelled from the spec: the constructor `Const::Const ()` (const.cpp is not
among the sources); the header documents the default `DEFAULT_CONST_VALUE`. -/
def Const : Const :=
  { m_constValue := DEFAULT_CONST_VALUE }

def GetConstValue (self : module.Const) : Double := self.m_constValue

def GetSourceModuleCount (_self : module.Const) : Int := 0

def GetValue (self : module.Const) (_x _y _z : Double) : Double := self.m_constValue

def SetConstValue (self : module.Const) (constValue : Double) : Call module.Const :=
  ⟨none, { self with m_constValue := constValue }⟩

/-- A `Const` seen through the base class, as a source module of another
module. -/
def toModule (self : module.Const) : Module :=
  ⟨fun x y z => self.GetValue x y z⟩

end Const

/-! ## clamp.h -/

def DEFAULT_CLAMP_LOWER_BOUND : Double := -1.0

def DEFAULT_CLAMP_UPPER_BOUND : Double := 1.0

/-- The data members of `noise::module::Clamp`: the one source-module slot of
the base class (`none` while it is not bound) and the clamping range. -/
structure Clamp where
  m_pSourceModule : Option Module
  m_lowerBound : Double
  m_upperBound : Double

namespace Clamp

/-- Modelled from the spec: the constructor `Clamp::Clamp ()` (clamp.cpp is not
among the sources); the header documents the default bounds, and no source
module is bound yet. -/
def Clamp : Clamp :=
  { m_pSourceModule := none
    m_lowerBound := DEFAULT_CLAMP_LOWER_BOUND
    m_upperBound := DEFAULT_CLAMP_UPPER_BOUND }

def GetLowerBound (self : module.Clamp) : Double := self.m_lowerBound

def GetSourceModuleCount (_self : module.Clamp) : Int := 1

def GetUpperBound (self : module.Clamp) : Double := self.m_upperBound

/-- Modelled from the spec: `Module::SetSourceModule (index, sourceModule)` of
the base class (modulebase.h is not among the sources): it binds the source
module at the slot, and an index outside `[0, GetSourceModuleCount ())` is an
invalid parameter. -/
def SetSourceModule (self : module.Clamp) (index : Int) (sourceModule : Module) :
    Call module.Clamp :=
  if index ≥ self.GetSourceModuleCount ∨ index < 0 then
    ⟨some Exception.ExceptionInvalidParam, self⟩
  else
    ⟨none, { self with m_pSourceModule := some sourceModule }⟩

/-- Modelled from the spec: `Clamp::SetBounds` (clamp.cpp is not among the
sources; the header declares it with the precondition that the lower bound is
less than or equal to the upper bound, and `@throw ExceptionInvalidParam`).
Bounds with `lowerBound > upperBound` fail with the invalid-parameter
exception before anything is stored. -/
def SetBounds (self : module.Clamp) (lowerBound upperBound : Double) : Call module.Clamp :=
  if lowerBound > upperBound then
    ⟨some Exception.ExceptionInvalidParam, self⟩
  else
    ⟨none, { self with m_lowerBound := lowerBound, m_upperBound := upperBound }⟩

/-- Modelled from the spec: `Clamp::GetValue` (clamp.cpp is not among the
sources). A value of the source module below the lower bound is clamped to
the lower bound, one above the upper bound to the upper bound. The result is
`none` when the source module is not bound (a programming defect, on which
the implementation fails fast). -/
def GetValue (self : module.Clamp) (x y z : Double) : Option Double :=
  match self.m_pSourceModule with
  | none => none
  | some sourceModule =>
    let value := sourceModule.GetValue x y z
    if value < self.m_lowerBound then
      some self.m_lowerBound
    else if value > self.m_upperBound then
      some self.m_upperBound
    else
      some value

/-- A call of one of the member functions of `Clamp` that change the node,
with its arguments. -/
inductive SetterCall where
  | SetBounds (lowerBound upperBound : Double)
  | SetSourceModule (index : Int) (sourceModule : Module)

/-- Dispatch of a setter call to the member function. -/
def call (self : module.Clamp) : SetterCall → Call module.Clamp
  | .SetBounds lowerBound upperBound => self.SetBounds lowerBound upperBound
  | .SetSourceModule index sourceModule => self.SetSourceModule index sourceModule

/-- The node after a sequence of setter calls, each of which may return or
throw (the caller catches the exception and goes on). -/
def run (self : module.Clamp) : List SetterCall → module.Clamp
  | [] => self
  | c :: cs => run (call self c).self cs

end Clamp

/-! ## exponent.h -/

def DEFAULT_EXPONENT : Double := 1.0

/-- The data members of `noise::module::Exponent`: the one source-module slot
of the base class (`none` while it is not bound) and the exponent. -/
structure Exponent where
  m_pSourceModule : Option Module
  m_exponent : Double

namespace Exponent

/-- Modelled from the spec: the constructor `Exponent::Exponent ()`
(exponent.cpp is not among the sources); the header documents the default
`DEFAULT_EXPONENT`, and no source module is bound yet. -/
def Exponent : Exponent :=
  { m_pSourceModule := none
    m_exponent := DEFAULT_EXPONENT }

def GetExponent (self : module.Exponent) : Double := self.m_exponent

def GetSourceModuleCount (_self : module.Exponent) : Int := 1

def SetExponent (self : module.Exponent) (exponent : Double) : Call module.Exponent :=
  ⟨none, { self with m_exponent := exponent }⟩

/-- Modelled from the spec: `Module::SetSourceModule (index, sourceModule)` of
the base class (modulebase.h is not among the sources), as for `Clamp`. -/
def SetSourceModule (self : module.Exponent) (index : Int) (sourceModule : Module) :
    Call module.Exponent :=
  if index ≥ self.GetSourceModuleCount ∨ index < 0 then
    ⟨some Exception.ExceptionInvalidParam, self⟩
  else
    ⟨none, { self with m_pSourceModule := some sourceModule }⟩

/-- Modelled from the spec: `Exponent::GetValue` (exponent.cpp is not among the
sources). The value of the source module is normalised to `[0, 1]` by
`(v + 1) / 2`, raised to the exponent, clamped into `[0, 1]` and rescaled to
`[-1, 1]` by `2 * v - 1`. The power function of the C library is the
parameter `pow`. The result is `none` when the source module is not bound. -/
def GetValue (pow : Double → Double → Double) (self : module.Exponent) (x y z : Double) :
    Option Double :=
  match self.m_pSourceModule with
  | none => none
  | some sourceModule =>
    let value := sourceModule.GetValue x y z
    let normalized := (value + 1) / 2
    let raised := pow normalized self.m_exponent
    let clamped := if raised < 0 then 0 else if raised > 1 then 1 else raised
    some (2 * clamped - 1)

end Exponent

end module

/-! ## Util: colours and colour gradients -/

namespace utils

/-- A C++ `float`: its value, a rational number. -/
abbrev Float32 := ℚ

/-- Rounding of a rational number to the nearest integer, a tie going to the
even integer. -/
def roundHalfEven (x : ℚ) : Int :=
  let f := ⌊x⌋
  if x - f < 1 / 2 then f
  else if x - f > 1 / 2 then f + 1
  else if f % 2 = 0 then f else f + 1

/-- The rounding of IEEE 754 arithmetic, to nearest with ties to even, of the
exact result `x` of an operation to the binary format with `precision`
significand bits and the smallest normal exponent `emin` (below it the
spacing of the subnormal numbers is kept). Overflow to an infinity is outside
the model. -/
def roundBinary (precision : Nat) (emin : Int) (x : ℚ) : ℚ :=
  if x = 0 then 0
  else
    let e := max (Int.log 2 |x|) emin
    let q := e - ((precision : Int) - 1)
    (roundHalfEven (x / 2 ^ q) : ℚ) * 2 ^ q

/-- The rounding of the exact result of an operation on `float` (binary32), and
the conversion of a `double` to `float`. -/
def toFloat32 (x : ℚ) : Float32 :=
  roundBinary 24 (-126) x

/-- The rounding of the exact result of an operation on `double` (binary64). -/
def toFloat64 (x : ℚ) : Double :=
  roundBinary 53 (-1022) x

/-- The conversion of a floating-point value to `std::uint8_t`: the value is
truncated toward zero; a result outside `[0, 255]` (undefined in C++) is
reduced modulo 256. -/
def toUInt8 (value : Float32) : Fin 256 :=
  let truncated : Int := if 0 ≤ value then ⌊value⌋ else ⌈value⌉
  ⟨(truncated % 256).toNat, by omega⟩

/-- The class `Color` (Color.hpp): four 8-bit channels, zero by default. -/
structure Color where
  alpha : Fin 256 := 0
  blue : Fin 256 := 0
  green : Fin 256 := 0
  red : Fin 256 := 0
  deriving DecidableEq, Repr, Inhabited

/-- The constructor `Color (r, g, b, a)`. -/
def Color.Color (r g b a : Fin 256) : Color :=
  { red := r, green := g, blue := b, alpha := a }

/-- The struct `GradientPoint` (GradientPoint.hpp). -/
structure GradientPoint where
  pos : Double := 0
  color : Color := {}
  deriving DecidableEq, Inhabited

/-- Modelled from the spec: the helper `ClampValue (value, lowerBound,
upperBound)` of noise/misc.h, which is not among the sources: the value
clamped into `[lowerBound, upperBound]`. -/
def ClampValue (value lowerBound upperBound : Int) : Int :=
  if value < lowerBound then lowerBound
  else if value > upperBound then upperBound
  else value

/-- The helper `BlendChannel` (GradientColor.cpp), which the source documents as
the linear interpolation between two 8-bit channel values. The arithmetic is
that of the code: `(float)channel / 255.0` is a division in `double`, whose
result is converted to `float`; the products, the difference, the sum and the
product by `255.0f` are operations on `float`, each rounded to binary32; the
result is converted to `std::uint8_t` by truncation. -/
def BlendChannel (channel0 channel1 : Fin 256) (alpha : Float32) : Fin 256 :=
  let c0 : Float32 := toFloat32 (toFloat64 ((channel0.val : ℚ) / 255))
  let c1 : Float32 := toFloat32 (toFloat64 ((channel1.val : ℚ) / 255))
  toUInt8 (toFloat32 (toFloat32 (toFloat32 (c1 * alpha) +
    toFloat32 (c0 * toFloat32 (1 - alpha))) * 255))

/-- The helper `LinearInterpColor` (GradientColor.cpp); the colour written to
`out` is the result. -/
def LinearInterpColor (color0 color1 : Color) (alpha : Float32) : Color :=
  { alpha := BlendChannel color0.alpha color1.alpha alpha
    blue := BlendChannel color0.blue color1.blue alpha
    green := BlendChannel color0.green color1.green alpha
    red := BlendChannel color0.red color1.red alpha }

/-- The data members of `GradientColor`: the number of gradient points and the
array of gradient points (the null pointer is the empty array). The member
`m_workingColor` only holds the colour that `GetColor` returns, and is the
result of `GetColor` here. -/
structure GradientColor where
  m_gradientPointCount : Int
  m_pGradientPoints : List GradientPoint
  deriving DecidableEq

namespace GradientColor

/-- The constructor `GradientColor::GradientColor ()`: it sets the array to the
null pointer and does not initialise `m_gradientPointCount`, whose
indeterminate value is the parameter. -/
def GradientColor (indeterminate : Int) : GradientColor :=
  { m_gradientPointCount := indeterminate
    m_pGradientPoints := [] }

def GetGradientPointArray (self : utils.GradientColor) : List GradientPoint :=
  self.m_pGradientPoints

def GetGradientPointCount (self : utils.GradientColor) : Int :=
  self.m_gradientPointCount

def Clear (_self : utils.GradientColor) : utils.GradientColor :=
  { m_gradientPointCount := 0
    m_pGradientPoints := [] }

/-- The loop of `FindInsertionPos`, with `remaining` array elements still to
visit from the index `insertionPos`. -/
def findInsertionLoop (points : List GradientPoint) (gradientPos : Double) :
    Nat → Nat → Except Exception Int
  | 0, insertionPos => Except.ok (insertionPos : Int)
  | remaining + 1, insertionPos =>
    if gradientPos < (points.getD insertionPos default).pos then
      Except.ok (insertionPos : Int)
    else if gradientPos = (points.getD insertionPos default).pos then
      Except.error Exception.ExceptionInvalidParam
    else
      findInsertionLoop points gradientPos remaining (insertionPos + 1)

/-- The member function `FindInsertionPos`: the loop runs from index 0 while
the index is below `m_gradientPointCount`. -/
def FindInsertionPos (self : utils.GradientColor) (gradientPos : Double) :
    Except Exception Int :=
  findInsertionLoop self.m_pGradientPoints gradientPos self.m_gradientPointCount.toNat 0

/-- The copy loop of `InsertAtPos`, with `remaining` elements of the old array
still to copy from the index `i` into the new array. -/
def insertCopyLoop (oldPoints : List GradientPoint) (insertionPos : Int) :
    Nat → Nat → List GradientPoint → List GradientPoint
  | 0, _, newGradientPoints => newGradientPoints
  | remaining + 1, i, newGradientPoints =>
    if (i : Int) < insertionPos then
      insertCopyLoop oldPoints insertionPos remaining (i + 1)
        (newGradientPoints.set i (oldPoints.getD i default))
    else
      insertCopyLoop oldPoints insertionPos remaining (i + 1)
        (newGradientPoints.set (i + 1) (oldPoints.getD i default))

/-- The member function `InsertAtPos`: a new array of `m_gradientPointCount + 1`
default gradient points receives the old points, those from `insertionPos` on
shifted up by one, and then the new gradient point at `insertionPos`. -/
def InsertAtPos (self : utils.GradientColor) (insertionPos : Int) (gradientPos : Double)
    (gradientColor : Color) : utils.GradientColor :=
  let newGradientPoints : List GradientPoint :=
    List.replicate (self.m_gradientPointCount + 1).toNat default
  let newGradientPoints := insertCopyLoop self.m_pGradientPoints insertionPos
    self.m_gradientPointCount.toNat 0 newGradientPoints
  { m_gradientPointCount := self.m_gradientPointCount + 1
    m_pGradientPoints :=
      newGradientPoints.set insertionPos.toNat { pos := gradientPos, color := gradientColor } }

/-- The member function `AddGradientPoint`: an exception of `FindInsertionPos`
leaves the call before `InsertAtPos` runs. -/
def AddGradientPoint (self : utils.GradientColor) (gradientPos : Double)
    (gradientColor : Color) : Call utils.GradientColor :=
  match self.FindInsertionPos gradientPos with
  | Except.error e => ⟨some e, self⟩
  | Except.ok insertionPos => ⟨none, self.InsertAtPos insertionPos gradientPos gradientColor⟩

/-- A sequence of `AddGradientPoint` calls; the first exception ends it. -/
def AddGradientPoints (self : utils.GradientColor) :
    List (Double × Color) → Call utils.GradientColor
  | [] => ⟨none, self⟩
  | point :: points =>
    match (self.AddGradientPoint point.1 point.2).thrown with
    | some e => ⟨some e, (self.AddGradientPoint point.1 point.2).self⟩
    | none => AddGradientPoints (self.AddGradientPoint point.1 point.2).self points

/-- The array of a gradient object holds `m_gradientPointCount` gradient
points. -/
def WellFormed (self : utils.GradientColor) : Prop :=
  self.m_gradientPointCount = (self.m_pGradientPoints.length : Int)

/-- The array of a gradient object is strictly ascending by position. -/
def Ascending (self : utils.GradientColor) : Prop :=
  self.m_pGradientPoints.Pairwise (fun a b => a.pos < b.pos)

instance (self : utils.GradientColor) : Decidable self.WellFormed := by
  unfold WellFormed
  infer_instance

instance (self : utils.GradientColor) : Decidable self.Ascending := by
  unfold Ascending
  infer_instance

/-- The search loop of `GetColor`, with `remaining` array elements still to
visit from the index `indexPos`. -/
def findIndexLoop (points : List GradientPoint) (gradientPos : Double) : Nat → Nat → Nat
  | 0, indexPos => indexPos
  | remaining + 1, indexPos =>
    if gradientPos < (points.getD indexPos default).pos then indexPos
    else findIndexLoop points gradientPos remaining (indexPos + 1)

/-- The member function `GetColor`; the result is `none` when the assertion
`m_gradientPointCount >= 2` fails. The two differences and the quotient that
give `alpha` are operations on `double`, each rounded to binary64, and
`(float)alpha` is the conversion to binary32. -/
def GetColor (self : utils.GradientColor) (gradientPos : Double) : Option Color :=
  if self.m_gradientPointCount ≥ 2 then
    let indexPos : Int :=
      findIndexLoop self.m_pGradientPoints gradientPos self.m_gradientPointCount.toNat 0
    let index0 := ClampValue (indexPos - 1) 0 (self.m_gradientPointCount - 1)
    let index1 := ClampValue indexPos 0 (self.m_gradientPointCount - 1)
    if index0 = index1 then
      some (self.m_pGradientPoints.getD index1.toNat default).color
    else
      let input0 := (self.m_pGradientPoints.getD index0.toNat default).pos
      let input1 := (self.m_pGradientPoints.getD index1.toNat default).pos
      let alpha := toFloat64 (toFloat64 (gradientPos - input0) / toFloat64 (input1 - input0))
      let color0 := (self.m_pGradientPoints.getD index0.toNat default).color
      let color1 := (self.m_pGradientPoints.getD index1.toNat default).color
      some (LinearInterpColor color0 color1 (toFloat32 alpha))
  else
    none

end GradientColor

/-! ## Util: noise maps -/

def RASTER_MAX_WIDTH : Int := 32767

def RASTER_MAX_HEIGHT : Int := 32767

def RASTER_STRIDE_BOUNDARY : Int := 4

/-- The C library function `memcpy` on arrays of `float`: `count` elements of
`source` from the offset `sourceOffset` on are written to `dest` from the
offset `destOffset` on. -/
def memcpy (dest : List Float32) (destOffset : Nat) (source : List Float32)
    (sourceOffset : Nat) : Nat → List Float32
  | 0 => dest
  | count + 1 =>
    (memcpy dest destOffset source sourceOffset count).set (destOffset + count)
      (source.getD (sourceOffset + count) 0)

/-- The data members of `NoiseMap`: `m_pNoiseMap` is `none` for the null
pointer and the allocated buffer otherwise; `m_memUsed` is a `size_t`. -/
structure NoiseMap where
  m_borderValue : Float32
  m_height : Int
  m_memUsed : Nat
  m_pNoiseMap : Option (List Float32)
  m_stride : Int
  m_width : Int
  deriving DecidableEq

namespace NoiseMap

/-- The member function `InitObj`: every member is reset. -/
def InitObj (_self : utils.NoiseMap) : utils.NoiseMap :=
  { m_pNoiseMap := none
    m_height := 0
    m_width := 0
    m_stride := 0
    m_memUsed := 0
    m_borderValue := 0 }

/-- The constructor `NoiseMap::NoiseMap ()`, which calls `InitObj`. -/
def NoiseMap : NoiseMap :=
  { m_pNoiseMap := none
    m_height := 0
    m_width := 0
    m_stride := 0
    m_memUsed := 0
    m_borderValue := 0 }

/-- Modelled from the spec: the getter `GetBorderValue` of NoiseMap.hpp, which
is not among the sources. -/
def GetBorderValue (self : utils.NoiseMap) : Float32 := self.m_borderValue

/-- Modelled from the spec: the getter `GetHeight` of NoiseMap.hpp, which is
not among the sources. -/
def GetHeight (self : utils.NoiseMap) : Int := self.m_height

/-- Modelled from the spec: the getter `GetWidth` of NoiseMap.hpp, which is not
among the sources. -/
def GetWidth (self : utils.NoiseMap) : Int := self.m_width

/-- Modelled from the spec: the helpers `GetSlabPtr (x, y)` and
`GetConstSlabPtr (x, y)` of NoiseMap.hpp, which is not among the sources: the
position of the value at `(x, y)` in the buffer, rows being `m_stride` values
apart. The pointer is its offset from the start of the buffer. -/
def GetSlabPtr (self : utils.NoiseMap) (x y : Int) : Nat :=
  x.toNat + self.m_stride.toNat * y.toNat

/-- The member function `DeleteNoiseMapAndReset`. -/
def DeleteNoiseMapAndReset (self : utils.NoiseMap) : utils.NoiseMap :=
  self.InitObj

/-- The member function `GetValue`. -/
def GetValue (self : utils.NoiseMap) (x y : Int) : Float32 :=
  match self.m_pNoiseMap with
  | some buffer =>
    if x ≥ 0 ∧ x < self.m_width ∧ y ≥ 0 ∧ y < self.m_height then
      buffer.getD (self.GetSlabPtr x y) 0
    else
      self.m_borderValue
  | none => self.m_borderValue

/-- The member function `SetSize`. The helpers `CalcStride` and
`CalcMinMemUsage` of NoiseMap.hpp, which is not among the sources, are
parameters, and so is the allocation `new float[n]`: `alloc n` is the new
buffer, or `none` when the allocation fails. -/
def SetSize (CalcStride : Int → Nat) (CalcMinMemUsage : Int → Int → Nat)
    (alloc : Nat → Option (List Float32)) (self : utils.NoiseMap) (width height : Int) :
    Call utils.NoiseMap :=
  if width < 0 ∨ height < 0 ∨ width > RASTER_MAX_WIDTH ∨ height > RASTER_MAX_HEIGHT then
    ⟨some Exception.ExceptionInvalidParam, self⟩
  else if width = 0 ∨ height = 0 then
    ⟨none, self.DeleteNoiseMapAndReset⟩
  else
    let newMemUsage := CalcMinMemUsage width height
    if self.m_memUsed < newMemUsage then
      match alloc newMemUsage with
      | none => ⟨some Exception.ExceptionOutOfMemory, self.DeleteNoiseMapAndReset⟩
      | some buffer =>
        ⟨none, { self.DeleteNoiseMapAndReset with
          m_pNoiseMap := some buffer
          m_memUsed := newMemUsage
          m_stride := (CalcStride width : Int)
          m_width := width
          m_height := height }⟩
    else
      ⟨none, { self with
        m_stride := (CalcStride width : Int)
        m_width := width
        m_height := height }⟩

/-- The noise maps of a program, by address: `this` and a reference to a
noise map are addresses, and two references may be the same address. -/
abbrev Store := Nat → utils.NoiseMap

/-- One iteration of the copy loop of `CopyNoiseMap`, for the row `y`: the
`memcpy` of `source.GetWidth ()` values from the slab of the source to the slab
of `this`. Both maps are read in the store as it is at that moment. -/
def copySlab (store : Store) (this source : Nat) (y : Nat) : Store :=
  match (store this).m_pNoiseMap, (store source).m_pNoiseMap with
  | some dest, some sourceBuffer =>
    Function.update store this { store this with
      m_pNoiseMap := some (memcpy dest ((store this).GetSlabPtr 0 y) sourceBuffer
        ((store source).GetSlabPtr 0 y) (store source).GetWidth.toNat) }
  | _, _ => store

/-- The copy loop of `CopyNoiseMap`, with `remaining` rows still to copy from
the row `y`. -/
def copySlabLoop (this source : Nat) : Nat → Nat → Store → Store
  | 0, _, store => store
  | remaining + 1, y, store =>
    copySlabLoop this source remaining (y + 1) (copySlab store this source y)

/-- The member function `CopyNoiseMap` of the noise map at the address `this`,
with the reference `source`: `SetSize` with the width and the height of the
source, whose exception leaves the call; then the rows, as many as the source
has after `SetSize`; then the border value of the source as it is then. -/
def CopyNoiseMap (CalcStride : Int → Nat) (CalcMinMemUsage : Int → Int → Nat)
    (alloc : Nat → Option (List Float32)) (store : Store) (this source : Nat) :
    Call Store :=
  let resized := (store this).SetSize CalcStride CalcMinMemUsage alloc
    (store source).GetWidth (store source).GetHeight
  let store := Function.update store this resized.self
  match resized.thrown with
  | some e => ⟨some e, store⟩
  | none =>
    let store := copySlabLoop this source (store source).GetHeight.toNat 0 store
    ⟨none, Function.update store this { store this with
      m_borderValue := (store source).m_borderValue }⟩

/-- The copy constructor `NoiseMap::NoiseMap (const NoiseMap& rhs)`, for the
new noise map at the address `this`: `InitObj`, then `CopyNoiseMap`. -/
def copyConstruct (CalcStride : Int → Nat) (CalcMinMemUsage : Int → Int → Nat)
    (alloc : Nat → Option (List Float32)) (store : Store) (this rhs : Nat) : Call Store :=
  CopyNoiseMap CalcStride CalcMinMemUsage alloc
    (Function.update store this (store this).InitObj) this rhs

/-- The assignment `NoiseMap::operator=` of the noise map at the address
`this`, which calls `CopyNoiseMap`. -/
def assign (CalcStride : Int → Nat) (CalcMinMemUsage : Int → Int → Nat)
    (alloc : Nat → Option (List Float32)) (store : Store) (this rhs : Nat) : Call Store :=
  CopyNoiseMap CalcStride CalcMinMemUsage alloc store this rhs

/-- The class invariant of `NoiseMap`: the size is within the raster limits; a
map without a buffer has the size 0 by 0 and uses no memory; a map with a
buffer has a positive size, `m_memUsed` is the length of the buffer, a row
fits in the stride and all rows fit in the buffer. -/
def Valid (self : utils.NoiseMap) : Prop :=
  0 ≤ self.m_width ∧ self.m_width ≤ RASTER_MAX_WIDTH ∧
  0 ≤ self.m_height ∧ self.m_height ≤ RASTER_MAX_HEIGHT ∧
  match self.m_pNoiseMap with
  | none => self.m_width = 0 ∧ self.m_height = 0 ∧ self.m_memUsed = 0
  | some buffer =>
    0 < self.m_width ∧ 0 < self.m_height ∧ buffer.length = self.m_memUsed ∧
    self.m_width ≤ self.m_stride ∧ self.m_stride.toNat * self.m_height.toNat ≤ self.m_memUsed

end NoiseMap

/-! ## Util: writers and renderers (noiseutils.cpp) -/

/-- The conversion `(noise::uint8)` of an unsigned value: its low eight
bits. -/
def castUInt8 (value : Nat) : Fin 256 :=
  ⟨value % 256, Nat.mod_lt _ (by decide)⟩

/-- The function `UnpackLittle16`: the two bytes are written at the indices 0
and 1 of the array `bytes`, which is returned. The argument is a
`noise::uint16`. -/
def UnpackLittle16 (bytes : List (Fin 256)) (integer : Nat) : List (Fin 256) :=
  let bytes := bytes.set 0 (castUInt8 (integer &&& 0x00ff))
  let bytes := bytes.set 1 (castUInt8 ((integer &&& 0xff00) >>> 8))
  bytes

/-- The function `UnpackLittle32`: the four bytes are written at the indices 0
to 3 of the array `bytes`, which is returned. The argument is a
`noise::uint32`. -/
def UnpackLittle32 (bytes : List (Fin 256)) (integer : Nat) : List (Fin 256) :=
  let bytes := bytes.set 0 (castUInt8 (integer &&& 0x000000ff))
  let bytes := bytes.set 1 (castUInt8 ((integer &&& 0x0000ff00) >>> 8))
  let bytes := bytes.set 2 (castUInt8 ((integer &&& 0x00ff0000) >>> 16))
  let bytes := bytes.set 3 (castUInt8 ((integer &&& 0xff000000) >>> 24))
  bytes

namespace WriterBMP

/-- The member function `WriterBMP::CalcWidthByteCount`:
`((width * 3) + 3) & ~0x03` on `int`, in two's complement. The products of
the widths of a raster (at most `RASTER_MAX_WIDTH`) stay within 32 bits. -/
def CalcWidthByteCount (width : Int) : Int :=
  Int.land ((width * 3) + 3) (~~~(0x03 : Int))

end WriterBMP

/-- The offsets of the four neighbours of a point that `RendererImage::Render`
reads; the row offsets are those before the multiplication by the stride. -/
structure NeighbourOffsets where
  xLeftOffset : Int
  xRightOffset : Int
  yUpOffset : Int
  yDownOffset : Int
  deriving DecidableEq, Repr

namespace RendererImage

/-- The guard at the start of `RendererImage::Render`: `true` when the
invalid-parameter exception is thrown. The arguments are what the guard
reads: whether the source noise map and the destination image are set, the
width and the height of the source noise map, and the number of gradient
points. -/
def renderThrows (hasSourceNoiseMap hasDestImage : Bool)
    (width height gradientPointCount : Int) : Bool :=
  !hasSourceNoiseMap || !hasDestImage || decide (width ≤ 0) || decide (height ≤ 0) ||
    decide (gradientPointCount < 2)

/-- The block of `RendererImage::Render` that calculates, when lighting is
enabled, the positions of the four neighbours of the point `(x, y)`. -/
def neighbourOffsets (m_isWrapEnabled : Bool) (width height x y : Int) : NeighbourOffsets :=
  if m_isWrapEnabled then
    let xOffsets : Int × Int :=
      if x = 0 then (width - 1, 1)
      else if x = width - 1 then (-1, -(width - 1))
      else (-1, 1)
    let yOffsets : Int × Int :=
      if y = 0 then (height - 1, 1)
      else if y = height - 1 then (-1, -(height - 1))
      else (-1, 1)
    { xLeftOffset := xOffsets.1, xRightOffset := xOffsets.2
      yDownOffset := yOffsets.1, yUpOffset := yOffsets.2 }
  else
    let xOffsets : Int × Int :=
      if x = 0 then (0, 1)
      else if x = width - 1 then (-1, 0)
      else (-1, 1)
    let yOffsets : Int × Int :=
      if y = 0 then (0, 1)
      else if y = height - 1 then (-1, 0)
      else (-1, 1)
    { xLeftOffset := xOffsets.1, xRightOffset := xOffsets.2
      yDownOffset := yOffsets.1, yUpOffset := yOffsets.2 }

end RendererImage

namespace RendererNormalMap

/-- The block of `RendererNormalMap::Render` that calculates the positions of
the right and up neighbours of the point `(x, y)`: the pair
`(xRightOffset, yUpOffset)`, the row offset before the multiplication by the
stride. -/
def neighbourOffsets (m_isWrapEnabled : Bool) (width height x y : Int) : Int × Int :=
  if m_isWrapEnabled then
    (if x = width - 1 then -(width - 1) else 1, if y = height - 1 then -(height - 1) else 1)
  else
    (if x = width - 1 then 0 else 1, if y = height - 1 then 0 else 1)

end RendererNormalMap

end utils

namespace module

/-! ## Properties of the setters of `Perlin` and `Billow` -/

/-- C1: for every Perlin node and every integer `n`, `SetOctaveCount (n)` fails
with the invalid-parameter exception if and only if `n < 1` or `n > 30`, and
it returns normally if and only if `1 ≤ n ≤ 30`; it fails for `0`, for `31`
and for every negative `n`, and it succeeds for `1` and for `30`, after which
`GetOctaveCount ()` returns the value that was set. -/
theorem Perlin_SetOctaveCount_fails_iff (p : Perlin) (n : Int) :
    ((p.SetOctaveCount n).thrown = some Exception.ExceptionInvalidParam ↔ (n < 1 ∨ n > 30)) ∧
    ((p.SetOctaveCount n).thrown = none ↔ (1 ≤ n ∧ n ≤ 30)) ∧
    ((p.SetOctaveCount n).thrown = none → (p.SetOctaveCount n).self.GetOctaveCount = n) ∧
    (p.SetOctaveCount 0).thrown = some Exception.ExceptionInvalidParam ∧
    (p.SetOctaveCount 31).thrown = some Exception.ExceptionInvalidParam ∧
    (n < 0 → (p.SetOctaveCount n).thrown = some Exception.ExceptionInvalidParam) ∧
    ((p.SetOctaveCount 1).thrown = none ∧ (p.SetOctaveCount 1).self.GetOctaveCount = 1) ∧
    ((p.SetOctaveCount 30).thrown = none ∧ (p.SetOctaveCount 30).self.GetOctaveCount = 30) := by
  have hfail : ∀ m : Int, (m < 1 ∨ m > 30) →
      p.SetOctaveCount m = ⟨some Exception.ExceptionInvalidParam, p⟩ := by
    intro m hm
    simp only [Perlin.SetOctaveCount, PERLIN_MAX_OCTAVE]
    rw [if_pos hm]
  have hok : ∀ m : Int, ¬ (m < 1 ∨ m > 30) →
      p.SetOctaveCount m = ⟨none, { p with m_octaveCount := m }⟩ := by
    intro m hm
    simp only [Perlin.SetOctaveCount, PERLIN_MAX_OCTAVE]
    rw [if_neg hm]
  refine ⟨?_, ?_, ?_, ?_, ?_, ?_, ?_, ?_⟩
  · by_cases h : n < 1 ∨ n > 30
    · simp [hfail n h, h]
    · simp [hok n h, h]
  · by_cases h : n < 1 ∨ n > 30
    · rw [hfail n h]
      constructor
      · intro hc
        cases hc
      · intro hc
        omega
    · rw [hok n h]
      constructor
      · intro _
        omega
      · intro _
        rfl
  · by_cases h : n < 1 ∨ n > 30
    · rw [hfail n h]
      intro hc
      cases hc
    · rw [hok n h]
      intro _
      rfl
  · rw [hfail 0 (by decide)]
  · rw [hfail 31 (by decide)]
  · intro hn
    rw [hfail n (by omega)]
  · rw [hok 1 (by decide)]
    exact ⟨rfl, rfl⟩
  · rw [hok 30 (by decide)]
    exact ⟨rfl, rfl⟩

/-- C2: for every Perlin node, every Billow node and every `n` outside
`[1, 30]`, the call `SetOctaveCount (n)` throws and leaves the node as it was:
frequency, lacunarity, persistence, octave count, seed and quality read the
same as before the call. -/
theorem SetOctaveCount_failure_keeps_state (p : Perlin) (b : Billow) (n : Int)
    (hn : n < 1 ∨ n > 30) :
    ((p.SetOctaveCount n).thrown = some Exception.ExceptionInvalidParam ∧
      (p.SetOctaveCount n).self = p ∧
      (p.SetOctaveCount n).self.GetFrequency = p.GetFrequency ∧
      (p.SetOctaveCount n).self.GetLacunarity = p.GetLacunarity ∧
      (p.SetOctaveCount n).self.GetPersistence = p.GetPersistence ∧
      (p.SetOctaveCount n).self.GetOctaveCount = p.GetOctaveCount ∧
      (p.SetOctaveCount n).self.GetSeed = p.GetSeed ∧
      (p.SetOctaveCount n).self.GetNoiseQuality = p.GetNoiseQuality) ∧
    ((b.SetOctaveCount n).thrown = some Exception.ExceptionInvalidParam ∧
      (b.SetOctaveCount n).self = b ∧
      (b.SetOctaveCount n).self.GetFrequency = b.GetFrequency ∧
      (b.SetOctaveCount n).self.GetLacunarity = b.GetLacunarity ∧
      (b.SetOctaveCount n).self.GetPersistence = b.GetPersistence ∧
      (b.SetOctaveCount n).self.GetOctaveCount = b.GetOctaveCount ∧
      (b.SetOctaveCount n).self.GetSeed = b.GetSeed ∧
      (b.SetOctaveCount n).self.GetNoiseQuality = b.GetNoiseQuality) := by
  have hp : p.SetOctaveCount n = ⟨some Exception.ExceptionInvalidParam, p⟩ := by
    simp only [Perlin.SetOctaveCount, PERLIN_MAX_OCTAVE]
    rw [if_pos hn]
  have hb : b.SetOctaveCount n = ⟨some Exception.ExceptionInvalidParam, b⟩ := by
    simp only [Billow.SetOctaveCount, BILLOW_MAX_OCTAVE]
    rw [if_pos hn]
  rw [hp, hb]
  exact ⟨⟨rfl, rfl, rfl, rfl, rfl, rfl, rfl, rfl⟩, ⟨rfl, rfl, rfl, rfl, rfl, rfl, rfl, rfl⟩⟩

/-- Witness of C2: `SetOctaveCount (31)` on the default Perlin node and
`SetOctaveCount (31)` on the default Billow node. -/
theorem SetOctaveCount_failure_keeps_state_witness :
    ((31 : Int) < 1 ∨ (31 : Int) > 30) ∧
    (Perlin.Perlin.SetOctaveCount 31).thrown = some Exception.ExceptionInvalidParam ∧
    (Perlin.Perlin.SetOctaveCount 31).self = Perlin.Perlin ∧
    (Perlin.Perlin.SetOctaveCount 31).self.GetOctaveCount = 6 ∧
    (Billow.Billow.SetOctaveCount 31).thrown = some Exception.ExceptionInvalidParam ∧
    (Billow.Billow.SetOctaveCount 31).self = Billow.Billow ∧
    (Billow.Billow.SetOctaveCount 31).self.GetOctaveCount = 6 := by
  have h := SetOctaveCount_failure_keeps_state Perlin.Perlin Billow.Billow 31 (by decide)
  obtain ⟨⟨h1, h2, -, -, -, h3, -, -⟩, ⟨h4, h5, -, -, -, h6, -, -⟩⟩ := h
  exact ⟨by decide, h1, h2, h3.trans rfl, h4, h5, h6.trans rfl⟩

/-- A setter call on a Perlin node keeps the octave count in `[1, 30]`. -/
lemma Perlin_call_octaveCount (p : Perlin) (c : Perlin.SetterCall)
    (h : 1 ≤ p.m_octaveCount ∧ p.m_octaveCount ≤ 30) :
    1 ≤ (p.call c).self.m_octaveCount ∧ (p.call c).self.m_octaveCount ≤ 30 := by
  cases c with
  | SetOctaveCount n =>
    simp only [Perlin.call, Perlin.SetOctaveCount, PERLIN_MAX_OCTAVE]
    split_ifs with hn
    · exact h
    · simp only
      omega
  | _ => exact h

/-- A sequence of setter calls on a Perlin node keeps the octave count in
`[1, 30]`. -/
lemma Perlin_run_octaveCount (cs : List Perlin.SetterCall) :
    ∀ p : Perlin, (1 ≤ p.m_octaveCount ∧ p.m_octaveCount ≤ 30) →
      1 ≤ (p.run cs).m_octaveCount ∧ (p.run cs).m_octaveCount ≤ 30 := by
  induction cs with
  | nil => intro p h; exact h
  | cons c cs ih => intro p h; exact ih _ (Perlin_call_octaveCount p c h)

/-- A setter call on a Billow node keeps the octave count in `[1, 30]`. -/
lemma Billow_call_octaveCount (b : Billow) (c : Billow.SetterCall)
    (h : 1 ≤ b.m_octaveCount ∧ b.m_octaveCount ≤ 30) :
    1 ≤ (b.call c).self.m_octaveCount ∧ (b.call c).self.m_octaveCount ≤ 30 := by
  cases c with
  | SetOctaveCount n =>
    simp only [Billow.call, Billow.SetOctaveCount, BILLOW_MAX_OCTAVE]
    split_ifs with hn
    · exact h
    · simp only
      omega
  | _ => exact h

/-- A sequence of setter calls on a Billow node keeps the octave count in
`[1, 30]`. -/
lemma Billow_run_octaveCount (cs : List Billow.SetterCall) :
    ∀ b : Billow, (1 ≤ b.m_octaveCount ∧ b.m_octaveCount ≤ 30) →
      1 ≤ (b.run cs).m_octaveCount ∧ (b.run cs).m_octaveCount ≤ 30 := by
  induction cs with
  | nil => intro b h; exact h
  | cons c cs ih => intro b h; exact ih _ (Billow_call_octaveCount b c h)

/-- C3: the default Perlin node and the default Billow node have octave count
6, and after any finite sequence of setter calls on them (`SetFrequency`,
`SetLacunarity`, `SetNoiseQuality`, `SetOctaveCount`, `SetPersistence`,
`SetSeed`, each returning or throwing), `GetOctaveCount ()` lies in
`[1, 30]`. -/
theorem octaveCount_invariant (cs : List Perlin.SetterCall) (ds : List Billow.SetterCall) :
    (Perlin.Perlin.GetOctaveCount = 6 ∧
      1 ≤ (Perlin.Perlin.run cs).GetOctaveCount ∧ (Perlin.Perlin.run cs).GetOctaveCount ≤ 30) ∧
    (Billow.Billow.GetOctaveCount = 6 ∧
      1 ≤ (Billow.Billow.run ds).GetOctaveCount ∧ (Billow.Billow.run ds).GetOctaveCount ≤ 30) :=
  ⟨⟨rfl, Perlin_run_octaveCount cs Perlin.Perlin (by decide)⟩,
    ⟨rfl, Billow_run_octaveCount ds Billow.Billow (by decide)⟩⟩

/-- A setter call on a Perlin node keeps the frequency positive when it is not
a `SetFrequency` with an argument that is not positive. -/
lemma Perlin_call_frequency (p : Perlin) (c : Perlin.SetterCall)
    (hc : ∀ f, c = Perlin.SetterCall.SetFrequency f → 0 < f) (h : 0 < p.m_frequency) :
    0 < (p.call c).self.m_frequency := by
  cases c with
  | SetFrequency f => exact hc f rfl
  | SetOctaveCount n =>
    simp only [Perlin.call, Perlin.SetOctaveCount]
    split_ifs <;> exact h
  | _ => exact h

/-- A sequence of setter calls on a Perlin node keeps the frequency positive
when every `SetFrequency` among them has a positive argument. -/
lemma Perlin_run_frequency (cs : List Perlin.SetterCall) :
    ∀ p : Perlin, (∀ f, Perlin.SetterCall.SetFrequency f ∈ cs → 0 < f) → 0 < p.m_frequency →
      0 < (p.run cs).m_frequency := by
  induction cs with
  | nil => intro p _ h; exact h
  | cons c cs ih =>
    intro p hcs h
    refine ih _ (fun f hf => hcs f (List.mem_cons_of_mem _ hf)) ?_
    exact Perlin_call_frequency p c (fun f hf => hcs f (by rw [hf]; exact List.mem_cons_self _ _)) h

/-- A setter call on a Billow node keeps the frequency positive when it is not
a `SetFrequency` with an argument that is not positive. -/
lemma Billow_call_frequency (b : Billow) (c : Billow.SetterCall)
    (hc : ∀ f, c = Billow.SetterCall.SetFrequency f → 0 < f) (h : 0 < b.m_frequency) :
    0 < (b.call c).self.m_frequency := by
  cases c with
  | SetFrequency f => exact hc f rfl
  | SetOctaveCount n =>
    simp only [Billow.call, Billow.SetOctaveCount]
    split_ifs <;> exact h
  | _ => exact h

/-- A sequence of setter calls on a Billow node keeps the frequency positive
when every `SetFrequency` among them has a positive argument. -/
lemma Billow_run_frequency (cs : List Billow.SetterCall) :
    ∀ b : Billow, (∀ f, Billow.SetterCall.SetFrequency f ∈ cs → 0 < f) → 0 < b.m_frequency →
      0 < (b.run cs).m_frequency := by
  induction cs with
  | nil => intro b _ h; exact h
  | cons c cs ih =>
    intro b hcs h
    refine ih _ (fun f hf => hcs f (List.mem_cons_of_mem _ hf)) ?_
    exact Billow_call_frequency b c (fun f hf => hcs f (by rw [hf]; exact List.mem_cons_self _ _)) h

/-- C4, as stated, fails: on the default Perlin node and on the default Billow
node `SetFrequency (-1.0)` returns normally and stores the value, so that
`GetFrequency ()` is `-1.0`, which is not positive, in a state reached from
the defaults by one setter call. -/
theorem SetFrequency_nonpositive_is_stored :
    (Perlin.Perlin.SetFrequency (-1)).thrown = none ∧
    (Perlin.Perlin.SetFrequency (-1)).self.GetFrequency = -1 ∧
    ¬ 0 < (Perlin.Perlin.run [Perlin.SetterCall.SetFrequency (-1)]).GetFrequency ∧
    (Billow.Billow.SetFrequency (-1)).thrown = none ∧
    (Billow.Billow.SetFrequency (-1)).self.GetFrequency = -1 ∧
    ¬ 0 < (Billow.Billow.run [Billow.SetterCall.SetFrequency (-1)]).GetFrequency := by
  refine ⟨rfl, rfl, ?_, rfl, rfl, ?_⟩
  · show ¬ (0 : ℚ) < -1
    norm_num
  · show ¬ (0 : ℚ) < -1
    norm_num

/-- C4, amended: for every Perlin node, every Billow node and every frequency,
positive or not, `SetFrequency (frequency)` returns normally and stores the
value, so that `GetFrequency ()` returns it afterwards; the default frequency
is positive, and `GetFrequency () > 0` holds in every state reached from the
defaults by setter calls whose `SetFrequency` arguments are all positive. -/
theorem SetFrequency_stores_every_value (p : Perlin) (b : Billow) (frequency : Double)
    (cs : List Perlin.SetterCall) (ds : List Billow.SetterCall)
    (hcs : ∀ f, Perlin.SetterCall.SetFrequency f ∈ cs → 0 < f)
    (hds : ∀ f, Billow.SetterCall.SetFrequency f ∈ ds → 0 < f) :
    ((p.SetFrequency frequency).thrown = none ∧
      (p.SetFrequency frequency).self.GetFrequency = frequency ∧
      0 < Perlin.Perlin.GetFrequency ∧ 0 < (Perlin.Perlin.run cs).GetFrequency) ∧
    ((b.SetFrequency frequency).thrown = none ∧
      (b.SetFrequency frequency).self.GetFrequency = frequency ∧
      0 < Billow.Billow.GetFrequency ∧ 0 < (Billow.Billow.run ds).GetFrequency) := by
  have hP : 0 < Perlin.Perlin.m_frequency := by
    show (0 : ℚ) < 1.0
    norm_num
  have hB : 0 < Billow.Billow.m_frequency := by
    show (0 : ℚ) < 1.0
    norm_num
  exact ⟨⟨rfl, rfl, hP, Perlin_run_frequency cs _ hcs hP⟩,
    ⟨rfl, rfl, hB, Billow_run_frequency ds _ hds hB⟩⟩

/-- Witness of the amended C4: `SetFrequency (-1.0)` on the default nodes, and
the default nodes after `SetFrequency (2.0)`, `SetOctaveCount (0)`. -/
theorem SetFrequency_stores_every_value_witness :
    (Perlin.Perlin.SetFrequency (-1)).thrown = none ∧
    (Perlin.Perlin.SetFrequency (-1)).self.GetFrequency = -1 ∧
    0 < (Perlin.Perlin.run [Perlin.SetterCall.SetFrequency 2,
      Perlin.SetterCall.SetOctaveCount 0]).GetFrequency ∧
    (Billow.Billow.SetFrequency (-1)).thrown = none ∧
    (Billow.Billow.SetFrequency (-1)).self.GetFrequency = -1 ∧
    0 < (Billow.Billow.run [Billow.SetterCall.SetFrequency 2,
      Billow.SetterCall.SetOctaveCount 0]).GetFrequency := by
  have h := SetFrequency_stores_every_value Perlin.Perlin Billow.Billow (-1)
    [Perlin.SetterCall.SetFrequency 2, Perlin.SetterCall.SetOctaveCount 0]
    [Billow.SetterCall.SetFrequency 2, Billow.SetterCall.SetOctaveCount 0]
    (by
      intro f hf
      simp only [List.mem_cons, Perlin.SetterCall.SetFrequency.injEq, List.mem_singleton,
        reduceCtorEq, or_false, List.mem_nil_iff] at hf
      rw [hf]
      norm_num)
    (by
      intro f hf
      simp only [List.mem_cons, Billow.SetterCall.SetFrequency.injEq, List.mem_singleton,
        reduceCtorEq, or_false, List.mem_nil_iff] at hf
      rw [hf]
      norm_num)
  exact ⟨h.1.1, h.1.2.1, h.1.2.2.2, h.2.1, h.2.2.1, h.2.2.2.2⟩

/-- C5: Billow mirrors Perlin. The default frequency, lacunarity, octave
count, persistence, quality and seed of Billow and the maximum octave count of
Billow equal those of Perlin, the constructors give the same parameters, and
for every integer `n` the call `Billow::SetOctaveCount (n)` throws exactly
when `Perlin::SetOctaveCount (n)` throws (and then the same exception), and
when it returns both nodes have the octave count `n`. -/
theorem Billow_mirrors_Perlin (p : Perlin) (b : Billow) (n : Int) :
    (DEFAULT_BILLOW_FREQUENCY = DEFAULT_PERLIN_FREQUENCY ∧
      DEFAULT_BILLOW_LACUNARITY = DEFAULT_PERLIN_LACUNARITY ∧
      DEFAULT_BILLOW_OCTAVE_COUNT = DEFAULT_PERLIN_OCTAVE_COUNT ∧
      DEFAULT_BILLOW_PERSISTENCE = DEFAULT_PERLIN_PERSISTENCE ∧
      DEFAULT_BILLOW_QUALITY = DEFAULT_PERLIN_QUALITY ∧
      DEFAULT_BILLOW_SEED = DEFAULT_PERLIN_SEED ∧
      BILLOW_MAX_OCTAVE = PERLIN_MAX_OCTAVE) ∧
    (Billow.Billow.GetFrequency = Perlin.Perlin.GetFrequency ∧
      Billow.Billow.GetLacunarity = Perlin.Perlin.GetLacunarity ∧
      Billow.Billow.GetOctaveCount = Perlin.Perlin.GetOctaveCount ∧
      Billow.Billow.GetPersistence = Perlin.Perlin.GetPersistence ∧
      Billow.Billow.GetNoiseQuality = Perlin.Perlin.GetNoiseQuality ∧
      Billow.Billow.GetSeed = Perlin.Perlin.GetSeed) ∧
    (b.SetOctaveCount n).thrown = (p.SetOctaveCount n).thrown ∧
    ((b.SetOctaveCount n).thrown ≠ none ↔ (n < 1 ∨ n > 30)) ∧
    ((b.SetOctaveCount n).thrown = none →
      (b.SetOctaveCount n).self.GetOctaveCount = n ∧
      (p.SetOctaveCount n).self.GetOctaveCount = n) := by
  refine ⟨⟨rfl, rfl, rfl, rfl, rfl, rfl, rfl⟩, ⟨rfl, rfl, rfl, rfl, rfl, rfl⟩, ?_⟩
  simp only [Billow.SetOctaveCount, Perlin.SetOctaveCount, BILLOW_MAX_OCTAVE,
    PERLIN_MAX_OCTAVE]
  by_cases h : n < 1 ∨ n > 30
  · rw [if_pos h, if_pos h]
    simp [h]
  · rw [if_neg h, if_neg h]
    simp [h, Billow.GetOctaveCount, Perlin.GetOctaveCount]

/-! ## Const -/

/-- C6: for every value `c` and all coordinates `(x, y, z)` and
`(x', y', z')`, `SetConstValue (c)` returns normally and the node then
evaluates to `c` at both coordinates; `GetConstValue ()` returns `c` too. -/
theorem Const_GetValue_is_constValue (k : Const) (c x y z x' y' z' : Double) :
    (k.SetConstValue c).thrown = none ∧
    (k.SetConstValue c).self.GetValue x y z = c ∧
    (k.SetConstValue c).self.GetValue x' y' z' = c ∧
    (k.SetConstValue c).self.GetValue x y z = (k.SetConstValue c).self.GetValue x' y' z' ∧
    (k.SetConstValue c).self.GetConstValue = c :=
  ⟨rfl, rfl, rfl, rfl, rfl⟩

/-! ## Clamp -/

/-- A setter call on a Clamp node keeps the lower bound below or equal to the
upper bound. -/
lemma Clamp_call_bounds (c : Clamp) (k : Clamp.SetterCall)
    (h : c.m_lowerBound ≤ c.m_upperBound) :
    (c.call k).self.m_lowerBound ≤ (c.call k).self.m_upperBound := by
  cases k with
  | SetBounds lowerBound upperBound =>
    simp only [Clamp.call, Clamp.SetBounds]
    split_ifs with hb
    · exact h
    · exact not_lt.mp hb
  | SetSourceModule index sourceModule =>
    simp only [Clamp.call, Clamp.SetSourceModule]
    split_ifs <;> exact h

/-- A sequence of setter calls on a Clamp node keeps the lower bound below or
equal to the upper bound. -/
lemma Clamp_run_bounds (ks : List Clamp.SetterCall) :
    ∀ c : Clamp, c.m_lowerBound ≤ c.m_upperBound →
      (c.run ks).m_lowerBound ≤ (c.run ks).m_upperBound := by
  induction ks with
  | nil => intro c h; exact h
  | cons k ks ih => intro c h; exact ih _ (Clamp_call_bounds c k h)

/-- C7: for every Clamp node and all bounds, `SetBounds (lowerBound,
upperBound)` throws the invalid-parameter exception if and only if
`lowerBound > upperBound` and returns normally otherwise; when it throws the
stored bounds are unchanged, and when it returns they are the arguments. The
default bounds are `(-1.0, 1.0)`, and in every state reached from the defaults
by `SetBounds` and `SetSourceModule` calls, returning or throwing,
`GetLowerBound () <= GetUpperBound ()`. -/
theorem Clamp_SetBounds_fails_iff (c : Clamp) (lowerBound upperBound : Double)
    (bs : List Clamp.SetterCall) :
    ((c.SetBounds lowerBound upperBound).thrown = some Exception.ExceptionInvalidParam ↔
      lowerBound > upperBound) ∧
    ((c.SetBounds lowerBound upperBound).thrown = none ↔ lowerBound ≤ upperBound) ∧
    ((c.SetBounds lowerBound upperBound).thrown ≠ none →
      (c.SetBounds lowerBound upperBound).self.GetLowerBound = c.GetLowerBound ∧
      (c.SetBounds lowerBound upperBound).self.GetUpperBound = c.GetUpperBound) ∧
    ((c.SetBounds lowerBound upperBound).thrown = none →
      (c.SetBounds lowerBound upperBound).self.GetLowerBound = lowerBound ∧
      (c.SetBounds lowerBound upperBound).self.GetUpperBound = upperBound) ∧
    (Clamp.Clamp.GetLowerBound = -1 ∧ Clamp.Clamp.GetUpperBound = 1) ∧
    (Clamp.Clamp.run bs).GetLowerBound ≤ (Clamp.Clamp.run bs).GetUpperBound := by
  have hdef : Clamp.Clamp.m_lowerBound ≤ Clamp.Clamp.m_upperBound := by
    show (-1.0 : ℚ) ≤ 1.0
    norm_num
  have hlo : Clamp.Clamp.GetLowerBound = -1 := by
    show (-1.0 : ℚ) = -1
    norm_num
  have hup : Clamp.Clamp.GetUpperBound = 1 := by
    show (1.0 : ℚ) = 1
    norm_num
  refine ⟨?_, ?_, ?_, ?_, ⟨hlo, hup⟩, Clamp_run_bounds bs _ hdef⟩
  all_goals
    simp only [Clamp.SetBounds]
    by_cases h : lowerBound > upperBound
    · rw [if_pos h]
      simp [h]
    · rw [if_neg h]
      simp [h, not_lt.mp h, Clamp.GetLowerBound, Clamp.GetUpperBound]

/-- C8: for every Clamp node with `lower <= upper` that is bound to a source
module, and every coordinate, `GetValue` returns a value: the lower bound when
the value of the source module is below it, the upper bound when the value of
the source module is above it, and the value of the source module otherwise;
hence the result lies in `[lower, upper]`. A Clamp with bounds `(-1.0, 1.0)`
that wraps a Const set to `5.0` evaluates to exactly `1.0` at the
coordinate. -/
theorem Clamp_GetValue_clamps (c : Clamp) (sourceModule : Module) (x y z : Double)
    (hsrc : c.m_pSourceModule = some sourceModule)
    (hle : c.GetLowerBound ≤ c.GetUpperBound) :
    (∃ r, c.GetValue x y z = some r ∧
      (sourceModule.GetValue x y z < c.GetLowerBound → r = c.GetLowerBound) ∧
      (sourceModule.GetValue x y z > c.GetUpperBound → r = c.GetUpperBound) ∧
      (c.GetLowerBound ≤ sourceModule.GetValue x y z ∧
        sourceModule.GetValue x y z ≤ c.GetUpperBound → r = sourceModule.GetValue x y z) ∧
      c.GetLowerBound ≤ r ∧ r ≤ c.GetUpperBound) ∧
    (((Clamp.Clamp.SetSourceModule 0 (Const.Const.SetConstValue 5).self.toModule).self.SetBounds
      (-1) 1).self.GetValue x y z = some 1) := by
  constructor
  · simp only [Clamp.GetLowerBound, Clamp.GetUpperBound] at hle ⊢
    simp only [Clamp.GetValue, hsrc]
    by_cases h1 : sourceModule.GetValue x y z < c.m_lowerBound
    · rw [if_pos h1]
      refine ⟨_, rfl, fun _ => rfl, ?_, ?_, le_refl _, hle⟩
      · intro h2
        exact absurd (lt_of_lt_of_le h1 hle) (not_lt.mpr (le_of_lt h2))
      · intro h2
        exact absurd h1 (not_lt.mpr h2.1)
    · rw [if_neg h1]
      by_cases h2 : sourceModule.GetValue x y z > c.m_upperBound
      · rw [if_pos h2]
        refine ⟨_, rfl, ?_, fun _ => rfl, ?_, hle, le_refl _⟩
        · intro h3
          exact absurd h3 h1
        · intro h3
          exact absurd h2 (not_lt.mpr h3.2)
      · rw [if_neg h2]
        refine ⟨_, rfl, ?_, ?_, fun _ => rfl, not_lt.mp h1, not_lt.mp h2⟩
        · intro h3
          exact absurd h3 h1
        · intro h3
          exact absurd h3 h2
  · simp only [Clamp.SetSourceModule, Clamp.GetSourceModuleCount, Clamp.SetBounds,
      Clamp.GetValue, Const.toModule, Const.GetValue, Const.SetConstValue]
    norm_num

/-- Witness of C8: the Clamp with bounds `(-1.0, 1.0)` that wraps a Const set
to `5.0`, at the coordinate `(1/2, 2, 3)`. -/
theorem Clamp_GetValue_clamps_witness :
    ((Clamp.Clamp.SetSourceModule 0 (Const.Const.SetConstValue 5).self.toModule).self.SetBounds
      (-1) 1).self.m_pSourceModule = some (Const.Const.SetConstValue 5).self.toModule ∧
    (∃ r, ((Clamp.Clamp.SetSourceModule 0
      (Const.Const.SetConstValue 5).self.toModule).self.SetBounds
      (-1) 1).self.GetValue (1 / 2) 2 3 = some r ∧ -1 ≤ r ∧ r ≤ 1) ∧
    ((Clamp.Clamp.SetSourceModule 0 (Const.Const.SetConstValue 5).self.toModule).self.SetBounds
      (-1) 1).self.GetValue (1 / 2) 2 3 = some 1 := by
  have hsrc : ((Clamp.Clamp.SetSourceModule 0
      (Const.Const.SetConstValue 5).self.toModule).self.SetBounds
      (-1) 1).self.m_pSourceModule = some (Const.Const.SetConstValue 5).self.toModule := by
    simp only [Clamp.SetSourceModule, Clamp.GetSourceModuleCount, Clamp.SetBounds]
    norm_num
  have hlo : ((Clamp.Clamp.SetSourceModule 0
      (Const.Const.SetConstValue 5).self.toModule).self.SetBounds
      (-1) 1).self.GetLowerBound = -1 := by
    simp only [Clamp.SetSourceModule, Clamp.GetSourceModuleCount, Clamp.SetBounds,
      Clamp.GetLowerBound]
    norm_num
  have hup : ((Clamp.Clamp.SetSourceModule 0
      (Const.Const.SetConstValue 5).self.toModule).self.SetBounds
      (-1) 1).self.GetUpperBound = 1 := by
    simp only [Clamp.SetSourceModule, Clamp.GetSourceModuleCount, Clamp.SetBounds,
      Clamp.GetUpperBound]
    norm_num
  have h := Clamp_GetValue_clamps _ _ (1 / 2) 2 3 hsrc (by rw [hlo, hup]; norm_num)
  obtain ⟨⟨r, hr, -, -, -, h1, h2⟩, h3⟩ := h
  rw [hlo] at h1
  rw [hup] at h2
  exact ⟨hsrc, ⟨r, hr, h1, h2⟩, h3⟩

/-! ## Exponent -/

/-- C9: for every Exponent node with exponent `1.0` that is bound to a source
module whose value `v` at the coordinate lies in `[-1, 1]`, `GetValue` returns
`v`: normalising by `(v + 1) / 2`, raising to the power 1, clamping into
`[0, 1]` and rescaling by `2 * v - 1` is the identity. The power function is
any function with `pow (b, 1.0) = b`. -/
theorem Exponent_one_is_identity (pow : Double → Double → Double) (e : Exponent)
    (sourceModule : Module) (x y z : Double)
    (hpow : ∀ b : Double, pow b 1 = b)
    (hsrc : e.m_pSourceModule = some sourceModule)
    (hexp : e.GetExponent = 1)
    (hv : -1 ≤ sourceModule.GetValue x y z ∧ sourceModule.GetValue x y z ≤ 1) :
    e.GetValue pow x y z = some (sourceModule.GetValue x y z) := by
  simp only [Exponent.GetExponent] at hexp
  simp only [Exponent.GetValue, hsrc, hexp, hpow]
  have h0 : ¬ (sourceModule.GetValue x y z + 1) / 2 < 0 := by
    rw [not_lt]
    apply div_nonneg _ (by norm_num)
    linarith [hv.1]
  have h1 : ¬ (sourceModule.GetValue x y z + 1) / 2 > 1 := by
    rw [gt_iff_lt, not_lt, div_le_iff₀ (by norm_num : (0 : ℚ) < 2)]
    linarith [hv.2]
  rw [if_neg h0, if_neg h1]
  congr 1
  ring

/-- Witness of C9: the default Exponent node (exponent `1.0`) bound to a Const
set to `-1/4`, with the power function that raises `b` to the numerator of
the exponent, at the coordinate `(1/2, 2, 3)`. -/
theorem Exponent_one_is_identity_witness :
    (Exponent.Exponent.SetSourceModule 0
      (Const.Const.SetConstValue (-1 / 4)).self.toModule).self.GetExponent = 1 ∧
    (Exponent.Exponent.SetSourceModule 0
      (Const.Const.SetConstValue (-1 / 4)).self.toModule).self.GetValue
        (fun b e => b ^ e.num.toNat) (1 / 2) 2 3 = some (-1 / 4) := by
  have hexp : (Exponent.Exponent.SetSourceModule 0
      (Const.Const.SetConstValue (-1 / 4)).self.toModule).self.GetExponent = 1 := by
    simp only [Exponent.SetSourceModule, Exponent.GetSourceModuleCount, Exponent.GetExponent]
    norm_num [Exponent.Exponent, DEFAULT_EXPONENT]
  have hsrc : (Exponent.Exponent.SetSourceModule 0
      (Const.Const.SetConstValue (-1 / 4)).self.toModule).self.m_pSourceModule =
      some (Const.Const.SetConstValue (-1 / 4)).self.toModule := by
    simp only [Exponent.SetSourceModule, Exponent.GetSourceModuleCount]
    norm_num
  have h := Exponent_one_is_identity (fun b e => b ^ e.num.toNat) _ _ (1 / 2) 2 3
    (by intro b; simp) hsrc hexp
    (by
      simp only [Const.toModule, Const.GetValue, Const.SetConstValue]
      norm_num)
  exact ⟨hexp, h⟩

/-! ## Perlin: the octave sum -/

/-- The octave loop adds to the accumulator, for each of the `remaining`
octaves `j`, the sample at the frequency `curFrequency * lacunarity ^ j` with
seed `m_seed + (curOctave + j)`, weighted by `curPersistence * persistence ^ j`. -/
lemma Perlin_octaveLoop_eq_sum (noise3D : CoherentNoise) (p : Perlin) (x y z : Double)
    (remaining : Nat) :
    ∀ (curOctave : Int) (value curFrequency curPersistence : Double),
      Perlin.octaveLoop noise3D p x y z remaining curOctave value curFrequency curPersistence =
        value + Finset.sum (Finset.range remaining) (fun j =>
          curPersistence * p.m_persistence ^ j *
            noise3D (curFrequency * p.m_lacunarity ^ j * x)
              (curFrequency * p.m_lacunarity ^ j * y)
              (curFrequency * p.m_lacunarity ^ j * z)
              (p.m_seed + (curOctave + (j : Int))) p.m_noiseQuality) := by
  induction remaining with
  | zero =>
    intro curOctave value curFrequency curPersistence
    simp [Perlin.octaveLoop]
  | succ k ih =>
    intro curOctave value curFrequency curPersistence
    rw [Perlin.octaveLoop, ih, Finset.sum_range_succ']
    have hterm : ∀ j : Nat,
        curPersistence * p.m_persistence * p.m_persistence ^ j *
          noise3D (curFrequency * p.m_lacunarity * p.m_lacunarity ^ j * x)
            (curFrequency * p.m_lacunarity * p.m_lacunarity ^ j * y)
            (curFrequency * p.m_lacunarity * p.m_lacunarity ^ j * z)
            (p.m_seed + (curOctave + 1 + (j : Int))) p.m_noiseQuality =
        curPersistence * p.m_persistence ^ (j + 1) *
          noise3D (curFrequency * p.m_lacunarity ^ (j + 1) * x)
            (curFrequency * p.m_lacunarity ^ (j + 1) * y)
            (curFrequency * p.m_lacunarity ^ (j + 1) * z)
            (p.m_seed + (curOctave + ((j + 1 : Nat) : Int))) p.m_noiseQuality := by
      intro j
      have e1 : curFrequency * p.m_lacunarity * p.m_lacunarity ^ j =
          curFrequency * p.m_lacunarity ^ (j + 1) := by ring
      have e2 : p.m_seed + (curOctave + 1 + (j : Int)) =
          p.m_seed + (curOctave + ((j + 1 : Nat) : Int)) := by
        push_cast
        ring
      rw [e1, e2]
      ring
    simp only [hterm, pow_zero, mul_one, Nat.cast_zero, add_zero]
    ring

/-- C10: for every Perlin node with octave count `n` in `[1, 30]` and every
coordinate `(x, y, z)`, `GetValue (x, y, z)` (a total function: the loop ends
after `n` octaves) is the sum over `i` in `[0, n)` of
`persistence ^ i * CoherentNoise3D (s_i * x, s_i * y, s_i * z, seed + i, quality)`
with `s_i = frequency * lacunarity ^ i`. -/
theorem Perlin_GetValue_eq_octave_sum (noise3D : CoherentNoise) (p : Perlin)
    (x y z : Double) (hn : 1 ≤ p.GetOctaveCount ∧ p.GetOctaveCount ≤ 30) :
    p.GetValue noise3D x y z =
      Finset.sum (Finset.range p.GetOctaveCount.toNat) (fun i =>
        p.GetPersistence ^ i *
          noise3D (p.GetFrequency * p.GetLacunarity ^ i * x)
            (p.GetFrequency * p.GetLacunarity ^ i * y)
            (p.GetFrequency * p.GetLacunarity ^ i * z)
            (p.GetSeed + (i : Int)) p.GetNoiseQuality) ∧
    (p.GetOctaveCount.toNat : Int) = p.GetOctaveCount := by
  refine ⟨?_, Int.toNat_of_nonneg (by omega)⟩
  simp only [Perlin.GetValue, Perlin.GetOctaveCount, Perlin.GetPersistence,
    Perlin.GetFrequency, Perlin.GetLacunarity, Perlin.GetSeed, Perlin.GetNoiseQuality]
  rw [Perlin_octaveLoop_eq_sum]
  simp only [zero_add, one_mul]

/-- Witness of C10: the default Perlin node (six octaves, frequency 1.0,
lacunarity 2.0, persistence 0.5, seed 0) over the primitive
`(x, y, z, seed) ↦ x + seed`, at the coordinate `(1/2, 0, 0)`: the octaves
are `1/2 + i / 2 ^ i` and their sum is `153/32`. -/
theorem Perlin_GetValue_eq_octave_sum_witness :
    (1 ≤ Perlin.Perlin.GetOctaveCount ∧ Perlin.Perlin.GetOctaveCount ≤ 30) ∧
    Perlin.Perlin.GetValue (fun x _ _ seed _ => x + seed) (1 / 2) 0 0 = 153 / 32 := by
  have hn : 1 ≤ Perlin.Perlin.GetOctaveCount ∧ Perlin.Perlin.GetOctaveCount ≤ 30 := by
    decide
  refine ⟨hn, ?_⟩
  rw [(Perlin_GetValue_eq_octave_sum (fun x _ _ seed _ => x + seed) Perlin.Perlin
    (1 / 2) 0 0 hn).1]
  have h6 : Perlin.Perlin.GetOctaveCount.toNat = 6 := by decide
  rw [h6]
  simp only [Perlin.GetPersistence, Perlin.GetFrequency, Perlin.GetLacunarity, Perlin.GetSeed,
    Perlin.Perlin, DEFAULT_PERLIN_FREQUENCY, DEFAULT_PERLIN_LACUNARITY,
    DEFAULT_PERLIN_PERSISTENCE, DEFAULT_PERLIN_SEED, Finset.sum_range_succ,
    Finset.sum_range_zero]
  norm_num

/-! ## Billow: one octave, and the transform of an octave -/

/-- C11: for every Billow node with octave count 1 and every coordinate
`(x, y, z)`, `GetValue (x, y, z)` is
`2 * |CoherentNoise3D (frequency * x, frequency * y, frequency * z, seed, quality)| - 1`. -/
theorem Billow_GetValue_one_octave (noise3D : CoherentNoise) (b : Billow) (x y z : Double)
    (h : b.GetOctaveCount = 1) :
    b.GetValue noise3D x y z =
      2 * |noise3D (b.GetFrequency * x) (b.GetFrequency * y) (b.GetFrequency * z)
        b.GetSeed b.GetNoiseQuality| - 1 := by
  simp only [Billow.GetOctaveCount] at h
  simp only [Billow.GetValue, h, Billow.GetFrequency, Billow.GetSeed, Billow.GetNoiseQuality]
  have h1 : (1 : Int).toNat = 0 + 1 := rfl
  rw [h1, Billow.octaveLoop, Billow.octaveLoop]
  simp only [Billow.octaveTransform, add_zero, mul_one, zero_add]

/-- Witness of C11: the default Billow node after `SetOctaveCount (1)`, over
the primitive `(x, y, z, seed) ↦ x - y + seed`, at the coordinate
`(1/4, 1, 0)`: the sample is `-3/4` and the value `2 * (3/4) - 1`. -/
theorem Billow_GetValue_one_octave_witness :
    (Billow.Billow.SetOctaveCount 1).self.GetOctaveCount = 1 ∧
    (Billow.Billow.SetOctaveCount 1).self.GetValue (fun x y _ seed _ => x - y + seed)
      (1 / 4) 1 0 = 1 / 2 := by
  have h1 : (Billow.Billow.SetOctaveCount 1).self.GetOctaveCount = 1 := by decide
  refine ⟨h1, ?_⟩
  rw [Billow_GetValue_one_octave _ _ _ _ _ h1]
  simp only [Billow.SetOctaveCount, Billow.GetFrequency, Billow.GetSeed, Billow.Billow,
    DEFAULT_BILLOW_FREQUENCY, DEFAULT_BILLOW_SEED, BILLOW_MAX_OCTAVE]
  norm_num [abs_of_neg]

/-- C12: for every sample `s` of the primitive with `-1 <= s <= 1`, the
transform `2 * |s| - 1` that Billow applies to an octave lies in `[-1, 1]`. -/
theorem Billow_octaveTransform_range (s : Double) (h : -1 ≤ s ∧ s ≤ 1) :
    -1 ≤ Billow.octaveTransform s ∧ Billow.octaveTransform s ≤ 1 := by
  have h0 : 0 ≤ |s| := abs_nonneg s
  have h1 : |s| ≤ 1 := abs_le.mpr h
  simp only [Billow.octaveTransform]
  constructor <;> linarith

/-- Witness of C12: the sample `-1/2` is transformed to `0`. -/
theorem Billow_octaveTransform_range_witness :
    (-1 ≤ (-1 / 2 : Double) ∧ (-1 / 2 : Double) ≤ 1) ∧
    -1 ≤ Billow.octaveTransform (-1 / 2) ∧ Billow.octaveTransform (-1 / 2) ≤ 1 := by
  have h : -1 ≤ (-1 / 2 : Double) ∧ (-1 / 2 : Double) ≤ 1 := by norm_num
  exact ⟨h, Billow_octaveTransform_range (-1 / 2) h⟩

end module

namespace utils

/-! ## Colour gradients: insertion of a gradient point -/

/-- When the loop of `FindInsertionPos` returns an index, the elements visited
before that index have a smaller position and the element at that index, if
there is one, has a larger position. -/
lemma findInsertionLoop_ok (gradientPos : Double) :
    ∀ (suf pre : List GradientPoint) (k : Int),
      GradientColor.findInsertionLoop (pre ++ suf) gradientPos suf.length pre.length =
        Except.ok k →
      ∃ s1 s2, suf = s1 ++ s2 ∧ k = ((pre.length + s1.length : Nat) : Int) ∧
        (∀ g ∈ s1, g.pos < gradientPos) ∧ (∀ g ∈ s2.head?, gradientPos < g.pos) := by
  intro suf
  induction suf with
  | nil =>
    intro pre k h
    simp only [List.length_nil, GradientColor.findInsertionLoop, Except.ok.injEq] at h
    exact ⟨[], [], rfl, by simp [← h], by simp, by simp⟩
  | cons g t ih =>
    intro pre k h
    have hg : (pre ++ g :: t).getD pre.length default = g := by
      rw [List.getD_append_right _ _ _ _ (le_refl _)]
      simp
    simp only [List.length_cons, GradientColor.findInsertionLoop, hg] at h
    split_ifs at h with h1 h2
    · simp only [Except.ok.injEq] at h
      exact ⟨[], g :: t, rfl, by simp [← h], by simp, by simpa using h1⟩
    · have h3 : pre ++ g :: t = (pre ++ [g]) ++ t := by simp
      have h4 : pre.length + 1 = (pre ++ [g]).length := by simp
      rw [h3, h4] at h
      obtain ⟨s1, s2, hs, hk, hlt, hhead⟩ := ih (pre ++ [g]) k h
      refine ⟨g :: s1, s2, by simp [hs], ?_, ?_, hhead⟩
      · rw [hk]
        simp only [List.length_append, List.length_cons, List.length_nil]
        omega
      · intro g' hg'
        rcases List.mem_cons.mp hg' with rfl | hg'
        · exact lt_of_le_of_ne (not_lt.mp h1) (fun e => h2 e.symm)
        · exact hlt g' hg'

/-- When the loop of `FindInsertionPos` throws, it throws the invalid-parameter
exception and an element of the array has the position. -/
lemma findInsertionLoop_error (gradientPos : Double) :
    ∀ (suf pre : List GradientPoint) (e : Exception),
      GradientColor.findInsertionLoop (pre ++ suf) gradientPos suf.length pre.length =
        Except.error e →
      e = Exception.ExceptionInvalidParam ∧ ∃ g ∈ suf, g.pos = gradientPos := by
  intro suf
  induction suf with
  | nil =>
    intro pre e h
    simp [GradientColor.findInsertionLoop] at h
  | cons g t ih =>
    intro pre e h
    have hg : (pre ++ g :: t).getD pre.length default = g := by
      rw [List.getD_append_right _ _ _ _ (le_refl _)]
      simp
    simp only [List.length_cons, GradientColor.findInsertionLoop, hg] at h
    split_ifs at h with h1 h2
    · simp only [Except.error.injEq] at h
      exact ⟨h.symm, g, List.mem_cons_self _ _, h2.symm⟩
    · have h3 : pre ++ g :: t = (pre ++ [g]) ++ t := by simp
      have h4 : pre.length + 1 = (pre ++ [g]).length := by simp
      rw [h3, h4] at h
      obtain ⟨he, g', hg', hp⟩ := ih (pre ++ [g]) e h
      exact ⟨he, g', List.mem_cons_of_mem _ hg', hp⟩

/-- The copy loop of `InsertAtPos` keeps the length of the new array. -/
lemma insertCopyLoop_length (oldPoints : List GradientPoint) (insertionPos : Int) :
    ∀ (remaining i : Nat) (newPoints : List GradientPoint),
      (GradientColor.insertCopyLoop oldPoints insertionPos remaining i newPoints).length =
        newPoints.length := by
  intro remaining
  induction remaining with
  | zero => intro i newPoints; rfl
  | succ r ih =>
    intro i newPoints
    simp only [GradientColor.insertCopyLoop]
    split_ifs <;> rw [ih] <;> simp

/-- The elements of the new array after the copy loop of `InsertAtPos`: an
old element below the insertion position is at its index, an old element from
the insertion position on is one index higher, and the others are as they
were. -/
lemma insertCopyLoop_getElem? (oldPoints : List GradientPoint) (k : Nat) :
    ∀ (remaining i : Nat) (newPoints : List GradientPoint) (j : Nat),
      i + remaining ≤ oldPoints.length → newPoints.length = oldPoints.length + 1 →
      (GradientColor.insertCopyLoop oldPoints (k : Int) remaining i newPoints)[j]? =
        if i ≤ j ∧ j < i + remaining ∧ j < k then oldPoints[j]?
        else if i < j ∧ j ≤ i + remaining ∧ k < j then oldPoints[j - 1]?
        else newPoints[j]? := by
  intro remaining
  induction remaining with
  | zero =>
    intro i newPoints j _ _
    simp only [GradientColor.insertCopyLoop, add_zero]
    rw [if_neg (by omega), if_neg (by omega)]
  | succ r ih =>
    intro i newPoints j hi hlen
    have hold : some (oldPoints.getD i default) = oldPoints[i]? := by
      rw [List.getD_eq_getElem _ _ (by omega), List.getElem?_eq_getElem]
    simp only [GradientColor.insertCopyLoop, Nat.cast_lt]
    by_cases hk : i < k
    · rw [if_pos hk, ih _ _ j (by omega) (by simp [hlen]), List.getElem?_set]
      by_cases hj : i = j
      · subst hj
        rw [hold.symm]
        split_ifs <;> first | rfl | omega
      · split_ifs <;> first | rfl | omega
    · rw [if_neg hk, ih _ _ j (by omega) (by simp [hlen]), List.getElem?_set]
      by_cases hj : i + 1 = j
      · subst hj
        have hold1 : oldPoints[i + 1 - 1]? = some (oldPoints.getD i default) := by
          rw [hold]
          rfl
        rw [hold1]
        split_ifs <;> first | rfl | omega
      · split_ifs <;> first | rfl | omega

/-- The effect of `InsertAtPos` on a gradient object whose count is the length
of its array: the new gradient point is inserted at the insertion
position. -/
lemma InsertAtPos_eq (self : GradientColor) (s1 s2 : List GradientPoint)
    (gradientPos : Double) (gradientColor : Color)
    (hpoints : self.m_pGradientPoints = s1 ++ s2)
    (hcount : self.m_gradientPointCount = ((s1 ++ s2).length : Int)) :
    self.InsertAtPos (s1.length : Int) gradientPos gradientColor =
      { m_gradientPointCount := (((s1 ++ s2).length + 1 : Nat) : Int)
        m_pGradientPoints := s1 ++ { pos := gradientPos, color := gradientColor } :: s2 } := by
  simp only [GradientColor.InsertAtPos, hpoints, hcount]
  congr 1
  apply List.ext_getElem?
  intro j
  have hn1 : (((s1 ++ s2).length : Int) + 1).toNat = (s1 ++ s2).length + 1 := by omega
  have hn2 : ((s1 ++ s2).length : Int).toNat = (s1 ++ s2).length := by omega
  have hn3 : ((s1.length : Nat) : Int).toNat = s1.length := by omega
  rw [hn1, hn2, hn3, List.getElem?_set, insertCopyLoop_length, List.length_replicate,
    insertCopyLoop_getElem? _ _ _ _ _ _ (by omega) (by simp), List.getElem?_replicate]
  have hlen : (s1 ++ s2).length = s1.length + s2.length := List.length_append _ _
  by_cases hj : s1.length = j
  · subst hj
    rw [if_pos rfl, if_pos (by omega), List.getElem?_append_right (le_refl _)]
    simp
  · rw [if_neg hj]
    by_cases h1 : j < s1.length
    · rw [if_pos (by omega), List.getElem?_append_left h1, List.getElem?_append_left h1]
    · rw [if_neg (by omega)]
      have h2 : s1.length < j := by omega
      by_cases h3 : j ≤ (s1 ++ s2).length
      · rw [if_pos (by omega), List.getElem?_append_right (by omega),
          List.getElem?_append_right (by omega)]
        have h4 : j - s1.length = (j - 1 - s1.length) + 1 := by omega
        rw [h4, List.getElem?_cons_succ]
      · rw [if_neg (by omega), if_neg (by omega), List.getElem?_append_right (by omega)]
        rw [List.getElem?_eq_none]
        simp only [List.length_cons]
        omega

/-- The two ways `AddGradientPoint` ends on a gradient object whose count is
the length of its array: it throws the invalid-parameter exception, the object
is unchanged and some gradient point has the position; or it returns, and the
new gradient point stands between the points with a smaller position and
those from the first point with a larger position on. -/
lemma AddGradientPoint_cases (self : GradientColor) (gradientPos : Double)
    (gradientColor : Color) (hwf : self.WellFormed) :
    ((self.AddGradientPoint gradientPos gradientColor).thrown =
        some Exception.ExceptionInvalidParam ∧
      (self.AddGradientPoint gradientPos gradientColor).self = self ∧
      ∃ g ∈ self.m_pGradientPoints, g.pos = gradientPos) ∨
    ((self.AddGradientPoint gradientPos gradientColor).thrown = none ∧
      ∃ s1 s2, self.m_pGradientPoints = s1 ++ s2 ∧
        (self.AddGradientPoint gradientPos gradientColor).self =
          { m_gradientPointCount := self.m_gradientPointCount + 1
            m_pGradientPoints :=
              s1 ++ { pos := gradientPos, color := gradientColor } :: s2 } ∧
        (∀ g ∈ s1, g.pos < gradientPos) ∧ (∀ g ∈ s2.head?, gradientPos < g.pos)) := by
  simp only [GradientColor.WellFormed] at hwf
  have hloop : self.FindInsertionPos gradientPos =
      GradientColor.findInsertionLoop ([] ++ self.m_pGradientPoints) gradientPos
        self.m_pGradientPoints.length ([] : List GradientPoint).length := by
    simp only [GradientColor.FindInsertionPos, hwf, List.nil_append, List.length_nil,
      Int.toNat_ofNat]
  simp only [GradientColor.AddGradientPoint]
  cases hres : self.FindInsertionPos gradientPos with
  | error e =>
    left
    rw [hloop] at hres
    obtain ⟨he, hex⟩ := findInsertionLoop_error gradientPos _ _ e hres
    exact ⟨by rw [he], rfl, hex⟩
  | ok k =>
    right
    rw [hloop] at hres
    obtain ⟨s1, s2, hs, hk, hlt, hhead⟩ := findInsertionLoop_ok gradientPos _ _ k hres
    refine ⟨rfl, s1, s2, hs, ?_, hlt, hhead⟩
    simp only [List.length_nil, zero_add] at hk
    simp only [hk]
    rw [InsertAtPos_eq self s1 s2 gradientPos gradientColor hs (by rw [hwf, hs])]
    rw [hwf, hs]
    simp

/-- Inserting a gradient point between the points with a smaller position and
those from the first point with a larger position on keeps an array strictly
ascending by position. -/
lemma pairwise_insert (s1 s2 : List GradientPoint) (g : GradientPoint)
    (hasc : (s1 ++ s2).Pairwise (fun a b : GradientPoint => a.pos < b.pos))
    (hlt : ∀ a ∈ s1, a.pos < g.pos) (hhead : ∀ b ∈ s2.head?, g.pos < b.pos) :
    (s1 ++ g :: s2).Pairwise (fun a b : GradientPoint => a.pos < b.pos) := by
  rw [List.pairwise_append] at hasc
  obtain ⟨h1, h2, h12⟩ := hasc
  have hgt : ∀ b ∈ s2, g.pos < b.pos := by
    intro b hb
    cases s2 with
    | nil => cases hb
    | cons c t =>
      have hc : g.pos < c.pos := hhead c (by simp)
      rcases List.mem_cons.mp hb with rfl | hb
      · exact hc
      · exact lt_trans hc ((List.pairwise_cons.mp h2).1 b hb)
  rw [List.pairwise_append]
  refine ⟨h1, List.pairwise_cons.mpr ⟨hgt, h2⟩, ?_⟩
  intro a ha b hb
  rcases List.mem_cons.mp hb with rfl | hb
  · exact hlt a ha
  · exact h12 a ha b hb

/-- Adding a gradient point with a new position to a well-formed gradient
object with an ascending array: the call returns, the object stays well formed
and ascending, and the new array is the old one with the point inserted. -/
lemma AddGradientPoint_new (self : GradientColor) (gradientPos : Double)
    (gradientColor : Color) (hwf : self.WellFormed) (hasc : self.Ascending)
    (hnew : ∀ g ∈ self.m_pGradientPoints, g.pos ≠ gradientPos) :
    (self.AddGradientPoint gradientPos gradientColor).thrown = none ∧
    (self.AddGradientPoint gradientPos gradientColor).self.Ascending ∧
    (self.AddGradientPoint gradientPos gradientColor).self.WellFormed ∧
    (∃ s1 s2, self.m_pGradientPoints = s1 ++ s2 ∧
      (self.AddGradientPoint gradientPos gradientColor).self.m_pGradientPoints =
        s1 ++ { pos := gradientPos, color := gradientColor } :: s2) ∧
    (self.AddGradientPoint gradientPos gradientColor).self.m_gradientPointCount =
      self.m_gradientPointCount + 1 := by
  rcases AddGradientPoint_cases self gradientPos gradientColor hwf with
    ⟨-, -, g, hg, hpos⟩ | ⟨hthrown, s1, s2, hs, hself, hlt, hhead⟩
  · exact absurd hpos (hnew g hg)
  · simp only [GradientColor.Ascending, GradientColor.WellFormed] at *
    rw [hself]
    refine ⟨hthrown, ?_, ?_, ⟨s1, s2, hs, rfl⟩, rfl⟩
    · rw [hs] at hasc
      exact pairwise_insert s1 s2 _ hasc hlt hhead
    · rw [hwf, hs]
      simp only [List.length_append, List.length_cons]
      omega

/-- C14: for every gradient object whose array holds `m_gradientPointCount`
points strictly ascending by position, `AddGradientPoint` either returns or
throws the invalid-parameter exception; it throws if and only if some
gradient point has exactly the position that is added, and when it throws the
gradient points and their count are unchanged. -/
theorem AddGradientPoint_throws_iff (self : GradientColor) (gradientPos : Double)
    (gradientColor : Color) (hwf : self.WellFormed) (hasc : self.Ascending) :
    ((self.AddGradientPoint gradientPos gradientColor).thrown =
        some Exception.ExceptionInvalidParam ↔
      ∃ g ∈ self.GetGradientPointArray, g.pos = gradientPos) ∧
    ((self.AddGradientPoint gradientPos gradientColor).thrown = none ↔
      ¬ ∃ g ∈ self.GetGradientPointArray, g.pos = gradientPos) ∧
    ((self.AddGradientPoint gradientPos gradientColor).thrown ≠ none →
      (self.AddGradientPoint gradientPos gradientColor).self = self ∧
      (self.AddGradientPoint gradientPos gradientColor).self.GetGradientPointArray =
        self.GetGradientPointArray ∧
      (self.AddGradientPoint gradientPos gradientColor).self.GetGradientPointCount =
        self.GetGradientPointCount) := by
  simp only [GradientColor.GetGradientPointArray, GradientColor.GetGradientPointCount]
  rcases AddGradientPoint_cases self gradientPos gradientColor hwf with
    ⟨hthrown, hself, hex⟩ | ⟨hthrown, s1, s2, hs, -, hlt, hhead⟩
  · rw [hthrown, hself]
    simp [hex]
  · have hno : ¬ ∃ g ∈ self.m_pGradientPoints, g.pos = gradientPos := by
      rintro ⟨g, hg, hpos⟩
      simp only [GradientColor.Ascending] at hasc
      rw [hs] at hasc hg
      have hins := pairwise_insert s1 s2 { pos := gradientPos, color := gradientColor }
        hasc hlt hhead
      rw [List.pairwise_append] at hins
      obtain ⟨-, h2, h12⟩ := hins
      rcases List.mem_append.mp hg with hg | hg
      · have := h12 g hg _ (List.mem_cons_self _ _)
        simp only [hpos, lt_self_iff_false] at this
      · have := (List.pairwise_cons.mp h2).1 g hg
        simp only [hpos, lt_self_iff_false] at this
    rw [hthrown]
    simp [hno]

/-- Witness of C14: in the gradient with the points `-1.0` (black) and `1.0`
(red), adding a point at `1.0` throws and adding a point at `0.0` does
not. -/
theorem AddGradientPoint_throws_iff_witness :
    (GradientColor.mk 2 [⟨-1, Color.Color 0 0 0 255⟩, ⟨1, Color.Color 255 0 0 255⟩]).WellFormed ∧
    (GradientColor.mk 2 [⟨-1, Color.Color 0 0 0 255⟩, ⟨1, Color.Color 255 0 0 255⟩]).Ascending ∧
    ((GradientColor.mk 2 [⟨-1, Color.Color 0 0 0 255⟩,
      ⟨1, Color.Color 255 0 0 255⟩]).AddGradientPoint 1
        (Color.Color 255 255 255 255)).thrown = some Exception.ExceptionInvalidParam ∧
    ((GradientColor.mk 2 [⟨-1, Color.Color 0 0 0 255⟩,
      ⟨1, Color.Color 255 0 0 255⟩]).AddGradientPoint 1
        (Color.Color 255 255 255 255)).self =
      GradientColor.mk 2 [⟨-1, Color.Color 0 0 0 255⟩, ⟨1, Color.Color 255 0 0 255⟩] ∧
    ((GradientColor.mk 2 [⟨-1, Color.Color 0 0 0 255⟩,
      ⟨1, Color.Color 255 0 0 255⟩]).AddGradientPoint 0
        (Color.Color 255 255 255 255)).thrown = none := by
  have hwf : (GradientColor.mk 2 [⟨-1, Color.Color 0 0 0 255⟩,
      ⟨1, Color.Color 255 0 0 255⟩]).WellFormed := by
    simp [GradientColor.WellFormed]
  have hasc : (GradientColor.mk 2 [⟨-1, Color.Color 0 0 0 255⟩,
      ⟨1, Color.Color 255 0 0 255⟩]).Ascending := by
    simp [GradientColor.Ascending]
  have h1 := AddGradientPoint_throws_iff _ 1 (Color.Color 255 255 255 255) hwf hasc
  have h0 := AddGradientPoint_throws_iff _ 0 (Color.Color 255 255 255 255) hwf hasc
  have ht := h1.1.mpr (by simp [GradientColor.GetGradientPointArray])
  refine ⟨hwf, hasc, ht, (h1.2.2 (by rw [ht]; simp)).1, ?_⟩
  exact h0.2.1.mpr (by simp [GradientColor.GetGradientPointArray])

/-- Adding gradient points with pairwise distinct positions, none of which is
in the array yet, to a well-formed gradient object with an ascending array:
no call throws, the object stays well formed and ascending, and the array
consists of the points added and the points it had. -/
lemma AddGradientPoints_spec :
    ∀ (points : List (Double × Color)) (self : GradientColor),
      self.WellFormed → self.Ascending →
      (points.map Prod.fst).Nodup →
      (∀ point ∈ points, ∀ g ∈ self.m_pGradientPoints, g.pos ≠ point.1) →
      (self.AddGradientPoints points).thrown = none ∧
      (self.AddGradientPoints points).self.WellFormed ∧
      (self.AddGradientPoints points).self.Ascending ∧
      List.Perm (self.AddGradientPoints points).self.m_pGradientPoints
        (points.map (fun point => (⟨point.1, point.2⟩ : GradientPoint)) ++
          self.m_pGradientPoints) := by
  intro points
  induction points with
  | nil =>
    intro self hwf hasc _ _
    exact ⟨rfl, hwf, hasc, List.Perm.refl _⟩
  | cons point rest ih =>
    intro self hwf hasc hnodup hnew
    obtain ⟨h1, h2, h3, ⟨s1, s2, hs, hs'⟩, -⟩ :=
      AddGradientPoint_new self point.1 point.2 hwf hasc
        (hnew point (List.mem_cons_self _ _))
    simp only [List.map_cons, List.nodup_cons] at hnodup
    have hperm1 : List.Perm (self.AddGradientPoint point.1 point.2).self.m_pGradientPoints
        (⟨point.1, point.2⟩ :: self.m_pGradientPoints) := by
      rw [hs', hs]
      exact List.perm_middle
    have hnew' : ∀ q ∈ rest,
        ∀ g ∈ (self.AddGradientPoint point.1 point.2).self.m_pGradientPoints, g.pos ≠ q.1 := by
      intro q hq g hg
      rcases List.mem_cons.mp (hperm1.mem_iff.mp hg) with rfl | hg
      · intro heq
        apply hnodup.1
        simp only at heq
        rw [heq]
        exact List.mem_map_of_mem _ hq
      · exact hnew q (List.mem_cons_of_mem _ hq) g hg
    obtain ⟨i1, i2, i3, i4⟩ := ih _ h3 h2 hnodup.2 hnew'
    simp only [GradientColor.AddGradientPoints, h1]
    refine ⟨i1, i2, i3, ?_⟩
    refine i4.trans ?_
    simp only [List.map_cons]
    refine (List.Perm.append_left _ hperm1).trans ?_
    exact List.perm_middle

/-- C15: order independence. For every list of gradient points with pairwise
distinct positions and every permutation of it, adding the points to a
cleared gradient object in the one order and in the other never throws and
gives the same gradient object: the same count, which is the number of points
added, and the same array of gradient points. -/
theorem AddGradientPoints_order_independent (self : GradientColor)
    (points permuted : List (Double × Color))
    (hnodup : (points.map Prod.fst).Nodup) (hperm : List.Perm points permuted) :
    (self.Clear.AddGradientPoints points).thrown = none ∧
    (self.Clear.AddGradientPoints permuted).thrown = none ∧
    (self.Clear.AddGradientPoints points).self = (self.Clear.AddGradientPoints permuted).self ∧
    (self.Clear.AddGradientPoints points).self.GetGradientPointCount = points.length ∧
    (self.Clear.AddGradientPoints points).self.GetGradientPointArray =
      (self.Clear.AddGradientPoints permuted).self.GetGradientPointArray ∧
    (self.Clear.AddGradientPoints points).self.Ascending := by
  have hwf : self.Clear.WellFormed := rfl
  have hasc : self.Clear.Ascending := List.Pairwise.nil
  have hnodup' : (permuted.map Prod.fst).Nodup := (hperm.map Prod.fst).nodup_iff.mp hnodup
  obtain ⟨a1, a2, a3, a4⟩ := AddGradientPoints_spec points self.Clear hwf hasc hnodup
    (fun _ _ g hg => by cases hg)
  obtain ⟨b1, b2, b3, b4⟩ := AddGradientPoints_spec permuted self.Clear hwf hasc hnodup'
    (fun _ _ g hg => by cases hg)
  have hpp : List.Perm (self.Clear.AddGradientPoints points).self.m_pGradientPoints
      (self.Clear.AddGradientPoints permuted).self.m_pGradientPoints := by
    refine a4.trans (List.Perm.trans ?_ b4.symm)
    exact List.Perm.append_right _ (hperm.map _)
  haveI : IsAntisymm GradientPoint (fun a b => a.pos < b.pos) :=
    ⟨fun a b h1 h2 => absurd h1 (lt_asymm h2)⟩
  have heq : (self.Clear.AddGradientPoints points).self.m_pGradientPoints =
      (self.Clear.AddGradientPoints permuted).self.m_pGradientPoints :=
    List.eq_of_perm_of_sorted hpp a3 b3
  have hlen : (self.Clear.AddGradientPoints points).self.m_pGradientPoints.length =
      points.length := by
    rw [a4.length_eq]
    simp [GradientColor.Clear]
  have hcount : (self.Clear.AddGradientPoints points).self.m_gradientPointCount =
      (self.Clear.AddGradientPoints permuted).self.m_gradientPointCount := by
    simp only [GradientColor.WellFormed] at a2 b2
    rw [a2, b2, heq]
  refine ⟨a1, b1, ?_, ?_, heq, a3⟩
  · cases hA : (self.Clear.AddGradientPoints points).self
    cases hB : (self.Clear.AddGradientPoints permuted).self
    rw [hA, hB] at heq hcount
    simp only at heq hcount
    rw [heq, hcount]
  · simp only [GradientColor.WellFormed] at a2
    simp only [GradientColor.GetGradientPointCount]
    rw [a2, hlen]

/-- Witness of C15: the points `-1.0` (black), `0.0` (white), `1.0` (red),
added to a cleared gradient object in this order and in the order `1.0`,
`-1.0`, `0.0`. -/
theorem AddGradientPoints_order_independent_witness :
    ((GradientColor.GradientColor 7).Clear.AddGradientPoints
      [(-1, Color.Color 0 0 0 255), (0, Color.Color 255 255 255 255),
        (1, Color.Color 255 0 0 255)]).self =
    ((GradientColor.GradientColor 7).Clear.AddGradientPoints
      [(1, Color.Color 255 0 0 255), (-1, Color.Color 0 0 0 255),
        (0, Color.Color 255 255 255 255)]).self ∧
    ((GradientColor.GradientColor 7).Clear.AddGradientPoints
      [(1, Color.Color 255 0 0 255), (-1, Color.Color 0 0 0 255),
        (0, Color.Color 255 255 255 255)]).self.GetGradientPointCount = 3 ∧
    ((GradientColor.GradientColor 7).Clear.AddGradientPoints
      [(1, Color.Color 255 0 0 255), (-1, Color.Color 0 0 0 255),
        (0, Color.Color 255 255 255 255)]).self.GetGradientPointArray =
      [⟨-1, Color.Color 0 0 0 255⟩, ⟨0, Color.Color 255 255 255 255⟩,
        ⟨1, Color.Color 255 0 0 255⟩] := by
  have h := AddGradientPoints_order_independent (GradientColor.GradientColor 7)
    [(-1, Color.Color 0 0 0 255), (0, Color.Color 255 255 255 255),
      (1, Color.Color 255 0 0 255)]
    [(1, Color.Color 255 0 0 255), (-1, Color.Color 0 0 0 255),
      (0, Color.Color 255 255 255 255)]
    (by simp; norm_num)
    (by decide)
  refine ⟨h.2.2.1, ?_, ?_⟩
  · rw [← h.2.2.1]
    exact h.2.2.2.1
  · rw [← h.2.2.2.2.1]
    decide

/-! ## Colour gradients: the colour at a position -/

/-- The search loop of `GetColor` stops at the first element with a larger
position. -/
lemma findIndexLoop_break (points : List GradientPoint) (gradientPos : Double) :
    ∀ (m remaining i : Nat), m < remaining →
      (∀ j, i ≤ j → j < i + m → ¬ gradientPos < (points.getD j default).pos) →
      gradientPos < (points.getD (i + m) default).pos →
      GradientColor.findIndexLoop points gradientPos remaining i = i + m := by
  intro m
  induction m with
  | zero =>
    intro remaining i hm _ hlt
    obtain ⟨r, rfl⟩ : ∃ r, remaining = r + 1 := ⟨remaining - 1, by omega⟩
    simp only [GradientColor.findIndexLoop]
    rw [if_pos (by simpa using hlt)]
    rfl
  | succ m ih =>
    intro remaining i hm hle hlt
    obtain ⟨r, rfl⟩ : ∃ r, remaining = r + 1 := ⟨remaining - 1, by omega⟩
    simp only [GradientColor.findIndexLoop]
    rw [if_neg (hle i (le_refl _) (by omega)),
      ih r (i + 1) (by omega) (fun j h1 h2 => hle j (by omega) (by omega))
        (by rw [show i + 1 + m = i + (m + 1) by omega]; exact hlt)]
    omega

/-- The search loop of `GetColor` runs to the end of the array when no element
has a larger position. -/
lemma findIndexLoop_end (points : List GradientPoint) (gradientPos : Double) :
    ∀ (remaining i : Nat),
      (∀ j, i ≤ j → j < i + remaining → ¬ gradientPos < (points.getD j default).pos) →
      GradientColor.findIndexLoop points gradientPos remaining i = i + remaining := by
  intro remaining
  induction remaining with
  | zero => intro i _; rfl
  | succ r ih =>
    intro i hle
    simp only [GradientColor.findIndexLoop]
    rw [if_neg (hle i (le_refl _) (by omega)),
      ih (i + 1) (fun j h1 h2 => hle j (by omega) (by omega))]
    omega

/-- In an array strictly ascending by position the first gradient point has
the smallest position and the last one the largest. -/
lemma ascending_first_last (points : List GradientPoint) (first last : GradientPoint)
    (hasc : points.Pairwise (fun a b : GradientPoint => a.pos < b.pos))
    (hfirst : points.head? = some first) (hlast : points.getLast? = some last) :
    ∀ g ∈ points, first.pos ≤ g.pos ∧ g.pos ≤ last.pos := by
  intro g hg
  constructor
  · obtain ⟨t, rfl⟩ := List.head?_eq_some_iff.mp hfirst
    rcases List.mem_cons.mp hg with rfl | hg
    · exact le_refl _
    · exact le_of_lt ((List.pairwise_cons.mp hasc).1 g hg)
  · obtain ⟨t, rfl⟩ := List.getLast?_eq_some_iff.mp hlast
    rcases List.mem_append.mp hg with hg | hg
    · exact le_of_lt ((List.pairwise_append.mp hasc).2.2 g hg last (by simp))
    · simp only [List.mem_singleton] at hg
      rw [hg]

/-- C17: for every gradient with at least two points, strictly ascending by
position (the first point then has the smallest position and the last point
the largest), `GetColor` returns exactly the colour of the first gradient
point when the position is less than the smallest position, and exactly the
colour of the last gradient point when the position is greater than or equal
to the largest position. -/
theorem GetColor_outside_range (self : GradientColor) (gradientPos : Double)
    (first last : GradientPoint) (hwf : self.WellFormed) (hasc : self.Ascending)
    (hcount : self.GetGradientPointCount ≥ 2)
    (hfirst : self.GetGradientPointArray.head? = some first)
    (hlast : self.GetGradientPointArray.getLast? = some last) :
    (∀ g ∈ self.GetGradientPointArray, first.pos ≤ g.pos ∧ g.pos ≤ last.pos) ∧
    (gradientPos < first.pos → self.GetColor gradientPos = some first.color) ∧
    (gradientPos ≥ last.pos → self.GetColor gradientPos = some last.color) := by
  simp only [GradientColor.GetGradientPointArray, GradientColor.GetGradientPointCount,
    GradientColor.WellFormed, GradientColor.Ascending] at *
  have hrange := ascending_first_last _ first last hasc hfirst hlast
  have hlen : 2 ≤ self.m_pGradientPoints.length := by omega
  have hn : self.m_gradientPointCount.toNat = self.m_pGradientPoints.length := by omega
  have h0 : self.m_pGradientPoints.getD 0 default = first := by
    obtain ⟨t, ht⟩ := List.head?_eq_some_iff.mp hfirst
    rw [ht]
    rfl
  refine ⟨hrange, ?_, ?_⟩
  · intro hlt
    have hidx : GradientColor.findIndexLoop self.m_pGradientPoints gradientPos
        self.m_gradientPointCount.toNat 0 = 0 + 0 :=
      findIndexLoop_break _ _ 0 _ 0 (by omega) (fun j h1 h2 => by omega)
        (by rw [h0]; exact hlt)
    simp only [GradientColor.GetColor, hidx, ClampValue]
    rw [if_pos hcount]
    have e1 : ClampValue (((0 + 0 : Nat) : Int) - 1) 0 (self.m_gradientPointCount - 1) = 0 := by
      simp only [ClampValue]
      rw [if_pos (by omega)]
    have e2 : ClampValue ((0 + 0 : Nat) : Int) 0 (self.m_gradientPointCount - 1) = 0 := by
      simp only [ClampValue]
      rw [if_neg (by omega), if_neg (by omega)]
      rfl
    simp only [ClampValue] at e1 e2
    rw [e1, e2]
    simp only [if_true, Int.toNat_zero]
    rw [h0]
  · intro hge
    have hidx : GradientColor.findIndexLoop self.m_pGradientPoints gradientPos
        self.m_gradientPointCount.toNat 0 = 0 + self.m_gradientPointCount.toNat :=
      findIndexLoop_end _ _ _ 0 (fun j _ h2 => by
        rw [List.getD_eq_getElem _ _ (by omega)]
        exact not_lt.mpr (le_trans (hrange _ (List.getElem_mem _)).2 hge))
    have hl : self.m_pGradientPoints.getD (self.m_pGradientPoints.length - 1) default = last := by
      rw [List.getD_eq_getElem?_getD, ← List.getLast?_eq_getElem?, hlast]
      rfl
    simp only [GradientColor.GetColor, hidx]
    rw [if_pos hcount]
    have e1 : ClampValue (((0 + self.m_gradientPointCount.toNat : Nat) : Int) - 1) 0
        (self.m_gradientPointCount - 1) = self.m_gradientPointCount - 1 := by
      simp only [ClampValue]
      rw [if_neg (by omega), if_neg (by omega)]
      omega
    have e2 : ClampValue ((0 + self.m_gradientPointCount.toNat : Nat) : Int) 0
        (self.m_gradientPointCount - 1) = self.m_gradientPointCount - 1 := by
      simp only [ClampValue]
      rw [if_neg (by omega), if_pos (by omega)]
    rw [e1, e2]
    simp only [if_true]
    have e3 : (self.m_gradientPointCount - 1).toNat = self.m_pGradientPoints.length - 1 := by
      omega
    rw [e3, hl]

/-- Witness of C17: the gradient with the points `-1.0` (black), `0.0` (white)
and `1.0` (red), at the positions `-2.0` and `1.0`. -/
theorem GetColor_outside_range_witness :
    (GradientColor.mk 3 [⟨-1, Color.Color 0 0 0 255⟩, ⟨0, Color.Color 255 255 255 255⟩,
      ⟨1, Color.Color 255 0 0 255⟩]).GetColor (-2) = some (Color.Color 0 0 0 255) ∧
    (GradientColor.mk 3 [⟨-1, Color.Color 0 0 0 255⟩, ⟨0, Color.Color 255 255 255 255⟩,
      ⟨1, Color.Color 255 0 0 255⟩]).GetColor 1 = some (Color.Color 255 0 0 255) := by
  have h := fun p => GetColor_outside_range
    (GradientColor.mk 3 [⟨-1, Color.Color 0 0 0 255⟩, ⟨0, Color.Color 255 255 255 255⟩,
      ⟨1, Color.Color 255 0 0 255⟩]) p ⟨-1, Color.Color 0 0 0 255⟩ ⟨1, Color.Color 255 0 0 255⟩
    (by decide) (by decide) (by decide) rfl rfl
  exact ⟨(h (-2)).2.1 (by norm_num), (h 1).2.2 (by norm_num)⟩

/-- The conversion to `std::uint8_t` of a value in `[0, 256)` is its integer
part. -/
lemma toUInt8_eq_floor (value : Float32) (h0 : 0 ≤ value) (h1 : value < 256) :
    ((toUInt8 value).val : Int) = ⌊value⌋ := by
  have hf0 : 0 ≤ ⌊value⌋ := Int.floor_nonneg.mpr h0
  have hf1 : ⌊value⌋ < 256 := Int.floor_lt.mpr (by exact_mod_cast h1)
  simp only [toUInt8, if_pos h0]
  omega

/-! ## Colour gradients: interpolation in floating-point arithmetic -/

/-- The rounding to the nearest integer of a value that is less than one half
away from an integer. -/
lemma roundHalfEven_eq (x : ℚ) (m : Int) (h1 : (m : ℚ) - 1 / 2 < x)
    (h2 : x < (m : ℚ) + 1 / 2) : roundHalfEven x = m := by
  simp only [roundHalfEven]
  by_cases hx : (m : ℚ) ≤ x
  · have hf : ⌊x⌋ = m := by
      rw [Int.floor_eq_iff]
      exact ⟨hx, by linarith⟩
    rw [hf, if_pos (by linarith)]
  · have hf : ⌊x⌋ = m - 1 := by
      rw [Int.floor_eq_iff]
      push_cast
      exact ⟨by linarith, by linarith [not_le.mp hx]⟩
    rw [hf, if_neg (by push_cast; linarith), if_pos (by push_cast; linarith)]
    omega

/-- The rounding to the nearest integer of a value halfway between an even
integer and the next integer: the even integer. -/
lemma roundHalfEven_tie_even (x : ℚ) (m : Int) (h : x = (m : ℚ) + 1 / 2) (hm : m % 2 = 0) :
    roundHalfEven x = m := by
  have hf : ⌊x⌋ = m := by
    rw [Int.floor_eq_iff]
    exact ⟨by linarith, by linarith⟩
  simp only [roundHalfEven, hf]
  rw [if_neg (by linarith), if_neg (by linarith), if_pos hm]

/-- The rounding to the nearest integer of a value halfway between an odd
integer and the even integer that follows it: the even integer. -/
lemma roundHalfEven_tie_odd (x : ℚ) (m : Int) (h : x = (m : ℚ) - 1 / 2) (hm : m % 2 = 0) :
    roundHalfEven x = m := by
  have hf : ⌊x⌋ = m - 1 := by
    rw [Int.floor_eq_iff]
    push_cast
    exact ⟨by linarith, by linarith⟩
  simp only [roundHalfEven, hf]
  rw [if_neg (by push_cast; linarith), if_neg (by push_cast; linarith), if_neg (by omega)]
  omega

/-- The rounding of a positive value `x` with `2 ^ e <= x < 2 ^ (e + 1)` to a
binary format: `m * 2 ^ (e - (precision - 1))` for the integer `m` to which
`x / 2 ^ (e - (precision - 1))` is rounded. -/
lemma roundBinary_eval (precision : Nat) (emin : Int) (x y : ℚ) (e m : Int)
    (hx : 0 < x) (hlo : (2 : ℚ) ^ e ≤ x) (hhi : x < (2 : ℚ) ^ (e + 1)) (hmin : emin ≤ e)
    (hround : roundHalfEven (x / 2 ^ (e - ((precision : Int) - 1))) = m)
    (hy : y = (m : ℚ) * 2 ^ (e - ((precision : Int) - 1))) :
    roundBinary precision emin x = y := by
  have habs : |x| = x := abs_of_pos hx
  have hlog : Int.log 2 |x| = e := by
    rw [habs]
    have a : e ≤ Int.log 2 x :=
      (Int.zpow_le_iff_le_log (by norm_num) hx).mp (by exact_mod_cast hlo)
    have b : Int.log 2 x < e + 1 :=
      (Int.lt_zpow_iff_log_lt (by norm_num) hx).mp (by exact_mod_cast hhi)
    omega
  simp only [roundBinary, if_neg (ne_of_gt hx), hlog, max_eq_left hmin]
  rw [hround, hy]

/-- The conversion to `std::uint8_t` of a value in `[r, r + 1)` for a channel
value `r`. -/
lemma toUInt8_eq (value : Float32) (r : Fin 256) (h1 : (r.val : ℚ) ≤ value)
    (h2 : value < (r.val : ℚ) + 1) : toUInt8 value = r := by
  have h0 : (0 : ℚ) ≤ value := le_trans (Nat.cast_nonneg _) h1
  have hf : ⌊value⌋ = (r.val : Int) := by
    rw [Int.floor_eq_iff]
    exact ⟨by exact_mod_cast h1, by exact_mod_cast h2⟩
  apply Fin.ext
  have hr := r.isLt
  simp only [toUInt8, if_pos h0, hf]
  omega

/-- The channel values 49 and 49 at `alpha = 5/16` in the arithmetic of the code:
the value that is truncated is `12845055 / 262144`, just below 49, and the result is
48. -/
lemma BlendChannel_49_49_5_16 : BlendChannel 49 49 (5 / 16) = 48 := by
  have e48 : ((48 : Fin 256) : Nat) = 48 := rfl
  have e49 : ((49 : Fin 256) : Nat) = 49 := rfl
  have h1 : toFloat64 (49 / 255) = 6923180603644057 / 36028797018963968 :=
    roundBinary_eval 53 (-1022) _ _ (-3) 6923180603644057 (by norm_num) (by norm_num) (by norm_num)
      (by norm_num) (roundHalfEven_eq _ _ (by norm_num) (by norm_num)) (by norm_num)
  have h2 : toFloat32 (6923180603644057 / 36028797018963968) = 12895429 / 67108864 :=
    roundBinary_eval 24 (-126) _ _ (-3) 12895429 (by norm_num) (by norm_num) (by norm_num)
      (by norm_num) (roundHalfEven_eq _ _ (by norm_num) (by norm_num)) (by norm_num)
  have h3 : toFloat32 ((12895429 / 67108864) * (5 / 16)) = 8059643 / 134217728 :=
    roundBinary_eval 24 (-126) _ _ (-5) 16119286 (by norm_num) (by norm_num) (by norm_num)
      (by norm_num) (roundHalfEven_eq _ _ (by norm_num) (by norm_num)) (by norm_num)
  have h4 : toFloat32 (1 - (5 / 16)) = 11 / 16 :=
    roundBinary_eval 24 (-126) _ _ (-1) 11534336 (by norm_num) (by norm_num) (by norm_num)
      (by norm_num) (roundHalfEven_eq _ _ (by norm_num) (by norm_num)) (by norm_num)
  have h5 : toFloat32 ((12895429 / 67108864) * (11 / 16)) = 8865607 / 67108864 :=
    roundBinary_eval 24 (-126) _ _ (-3) 8865607 (by norm_num) (by norm_num) (by norm_num)
      (by norm_num) (roundHalfEven_eq _ _ (by norm_num) (by norm_num)) (by norm_num)
  have h6 : toFloat32 ((8059643 / 134217728) + (8865607 / 67108864)) = 3223857 / 16777216 :=
    roundBinary_eval 24 (-126) _ _ (-3) 12895428 (by norm_num) (by norm_num) (by norm_num)
      (by norm_num) (roundHalfEven_tie_even _ _ (by norm_num) (by decide)) (by norm_num)
  have h7 : toFloat32 ((3223857 / 16777216) * 255) = 12845055 / 262144 :=
    roundBinary_eval 24 (-126) _ _ 5 12845055 (by norm_num) (by norm_num) (by norm_num)
      (by norm_num) (roundHalfEven_eq _ _ (by norm_num) (by norm_num)) (by norm_num)
  simp only [BlendChannel, e48, e49, Nat.cast_ofNat, Nat.cast_zero, Nat.cast_one]
  simp only [h1, h2, h3, h4, h5, h6, h7]
  exact toUInt8_eq _ _ (by norm_num [e48, e49]) (by norm_num [e48, e49])

/-- The channel values 53 and 53 at `alpha = 5/16` in the arithmetic of the code:
the value that is truncated is `13893631 / 262144`, just below 53, and the result is
52. -/
lemma BlendChannel_53_53_5_16 : BlendChannel 53 53 (5 / 16) = 52 := by
  have e52 : ((52 : Fin 256) : Nat) = 52 := rfl
  have e53 : ((53 : Fin 256) : Nat) = 53 := rfl
  have h1 : toFloat64 (53 / 255) = 7488338203941531 / 36028797018963968 :=
    roundBinary_eval 53 (-1022) _ _ (-3) 7488338203941531 (by norm_num) (by norm_num) (by norm_num)
      (by norm_num) (roundHalfEven_eq _ _ (by norm_num) (by norm_num)) (by norm_num)
  have h2 : toFloat32 (7488338203941531 / 36028797018963968) = 13948117 / 67108864 :=
    roundBinary_eval 24 (-126) _ _ (-3) 13948117 (by norm_num) (by norm_num) (by norm_num)
      (by norm_num) (roundHalfEven_eq _ _ (by norm_num) (by norm_num)) (by norm_num)
  have h3 : toFloat32 ((13948117 / 67108864) * (5 / 16)) = 8717573 / 134217728 :=
    roundBinary_eval 24 (-126) _ _ (-4) 8717573 (by norm_num) (by norm_num) (by norm_num)
      (by norm_num) (roundHalfEven_eq _ _ (by norm_num) (by norm_num)) (by norm_num)
  have h4 : toFloat32 (1 - (5 / 16)) = 11 / 16 :=
    roundBinary_eval 24 (-126) _ _ (-1) 11534336 (by norm_num) (by norm_num) (by norm_num)
      (by norm_num) (roundHalfEven_eq _ _ (by norm_num) (by norm_num)) (by norm_num)
  have h5 : toFloat32 ((13948117 / 67108864) * (11 / 16)) = 4794665 / 33554432 :=
    roundBinary_eval 24 (-126) _ _ (-3) 9589330 (by norm_num) (by norm_num) (by norm_num)
      (by norm_num) (roundHalfEven_eq _ _ (by norm_num) (by norm_num)) (by norm_num)
  have h6 : toFloat32 ((8717573 / 134217728) + (4794665 / 33554432)) = 3487029 / 16777216 :=
    roundBinary_eval 24 (-126) _ _ (-3) 13948116 (by norm_num) (by norm_num) (by norm_num)
      (by norm_num) (roundHalfEven_tie_even _ _ (by norm_num) (by decide)) (by norm_num)
  have h7 : toFloat32 ((3487029 / 16777216) * 255) = 13893631 / 262144 :=
    roundBinary_eval 24 (-126) _ _ 5 13893631 (by norm_num) (by norm_num) (by norm_num)
      (by norm_num) (roundHalfEven_eq _ _ (by norm_num) (by norm_num)) (by norm_num)
  simp only [BlendChannel, e52, e53, Nat.cast_ofNat, Nat.cast_zero, Nat.cast_one]
  simp only [h1, h2, h3, h4, h5, h6, h7]
  exact toUInt8_eq _ _ (by norm_num [e52, e53]) (by norm_num [e52, e53])

/-- The channel values 57 and 57 at `alpha = 5/16` in the arithmetic of the code:
the value that is truncated is `14942207 / 262144`, just below 57, and the result is
56. -/
lemma BlendChannel_57_57_5_16 : BlendChannel 57 57 (5 / 16) = 56 := by
  have e56 : ((56 : Fin 256) : Nat) = 56 := rfl
  have e57 : ((57 : Fin 256) : Nat) = 57 := rfl
  have h1 : toFloat64 (57 / 255) = 8053495804239005 / 36028797018963968 :=
    roundBinary_eval 53 (-1022) _ _ (-3) 8053495804239005 (by norm_num) (by norm_num) (by norm_num)
      (by norm_num) (roundHalfEven_eq _ _ (by norm_num) (by norm_num)) (by norm_num)
  have h2 : toFloat32 (8053495804239005 / 36028797018963968) = 15000805 / 67108864 :=
    roundBinary_eval 24 (-126) _ _ (-3) 15000805 (by norm_num) (by norm_num) (by norm_num)
      (by norm_num) (roundHalfEven_eq _ _ (by norm_num) (by norm_num)) (by norm_num)
  have h3 : toFloat32 ((15000805 / 67108864) * (5 / 16)) = 9375503 / 134217728 :=
    roundBinary_eval 24 (-126) _ _ (-4) 9375503 (by norm_num) (by norm_num) (by norm_num)
      (by norm_num) (roundHalfEven_eq _ _ (by norm_num) (by norm_num)) (by norm_num)
  have h4 : toFloat32 (1 - (5 / 16)) = 11 / 16 :=
    roundBinary_eval 24 (-126) _ _ (-1) 11534336 (by norm_num) (by norm_num) (by norm_num)
      (by norm_num) (roundHalfEven_eq _ _ (by norm_num) (by norm_num)) (by norm_num)
  have h5 : toFloat32 ((15000805 / 67108864) * (11 / 16)) = 10313053 / 67108864 :=
    roundBinary_eval 24 (-126) _ _ (-3) 10313053 (by norm_num) (by norm_num) (by norm_num)
      (by norm_num) (roundHalfEven_eq _ _ (by norm_num) (by norm_num)) (by norm_num)
  have h6 : toFloat32 ((9375503 / 134217728) + (10313053 / 67108864)) = 3750201 / 16777216 :=
    roundBinary_eval 24 (-126) _ _ (-3) 15000804 (by norm_num) (by norm_num) (by norm_num)
      (by norm_num) (roundHalfEven_tie_even _ _ (by norm_num) (by decide)) (by norm_num)
  have h7 : toFloat32 ((3750201 / 16777216) * 255) = 14942207 / 262144 :=
    roundBinary_eval 24 (-126) _ _ 5 14942207 (by norm_num) (by norm_num) (by norm_num)
      (by norm_num) (roundHalfEven_eq _ _ (by norm_num) (by norm_num)) (by norm_num)
  simp only [BlendChannel, e56, e57, Nat.cast_ofNat, Nat.cast_zero, Nat.cast_one]
  simp only [h1, h2, h3, h4, h5, h6, h7]
  exact toUInt8_eq _ _ (by norm_num [e56, e57]) (by norm_num [e56, e57])

/-- The channel values 255 and 255 at `alpha = 5/16` in the arithmetic of the code:
the value that is truncated is `255` and the result is 255. -/
lemma BlendChannel_255_255_5_16 : BlendChannel 255 255 (5 / 16) = 255 := by
  have e255 : ((255 : Fin 256) : Nat) = 255 := rfl
  have h1 : toFloat64 (255 / 255) = 1 :=
    roundBinary_eval 53 (-1022) _ _ 0 4503599627370496 (by norm_num) (by norm_num) (by norm_num)
      (by norm_num) (roundHalfEven_eq _ _ (by norm_num) (by norm_num)) (by norm_num)
  have h2 : toFloat32 (1) = 1 :=
    roundBinary_eval 24 (-126) _ _ 0 8388608 (by norm_num) (by norm_num) (by norm_num)
      (by norm_num) (roundHalfEven_eq _ _ (by norm_num) (by norm_num)) (by norm_num)
  have h3 : toFloat32 (1 * (5 / 16)) = 5 / 16 :=
    roundBinary_eval 24 (-126) _ _ (-2) 10485760 (by norm_num) (by norm_num) (by norm_num)
      (by norm_num) (roundHalfEven_eq _ _ (by norm_num) (by norm_num)) (by norm_num)
  have h4 : toFloat32 (1 - (5 / 16)) = 11 / 16 :=
    roundBinary_eval 24 (-126) _ _ (-1) 11534336 (by norm_num) (by norm_num) (by norm_num)
      (by norm_num) (roundHalfEven_eq _ _ (by norm_num) (by norm_num)) (by norm_num)
  have h5 : toFloat32 (1 * (11 / 16)) = 11 / 16 :=
    roundBinary_eval 24 (-126) _ _ (-1) 11534336 (by norm_num) (by norm_num) (by norm_num)
      (by norm_num) (roundHalfEven_eq _ _ (by norm_num) (by norm_num)) (by norm_num)
  have h6 : toFloat32 ((5 / 16) + (11 / 16)) = 1 :=
    roundBinary_eval 24 (-126) _ _ 0 8388608 (by norm_num) (by norm_num) (by norm_num)
      (by norm_num) (roundHalfEven_eq _ _ (by norm_num) (by norm_num)) (by norm_num)
  have h7 : toFloat32 (1 * 255) = 255 :=
    roundBinary_eval 24 (-126) _ _ 7 16711680 (by norm_num) (by norm_num) (by norm_num)
      (by norm_num) (roundHalfEven_eq _ _ (by norm_num) (by norm_num)) (by norm_num)
  simp only [BlendChannel, e255, Nat.cast_ofNat, Nat.cast_zero, Nat.cast_one]
  simp only [h1, h2, h3, h4, h5, h6, h7]
  exact toUInt8_eq _ _ (by norm_num [e255]) (by norm_num [e255])

/-- The channel values 0 and 255 at `alpha = 1/2` in the arithmetic of the code:
the value that is truncated is `255 / 2` and the result is 127. -/
lemma BlendChannel_0_255_1_2 : BlendChannel 0 255 (1 / 2) = 127 := by
  have e0 : ((0 : Fin 256) : Nat) = 0 := rfl
  have e127 : ((127 : Fin 256) : Nat) = 127 := rfl
  have e255 : ((255 : Fin 256) : Nat) = 255 := rfl
  have h1 : toFloat64 (0 / 255) = 0 := by
    norm_num [toFloat64, roundBinary]
  have h2 : toFloat32 (0) = 0 := by
    norm_num [toFloat32, roundBinary]
  have h3 : toFloat64 (255 / 255) = 1 :=
    roundBinary_eval 53 (-1022) _ _ 0 4503599627370496 (by norm_num) (by norm_num) (by norm_num)
      (by norm_num) (roundHalfEven_eq _ _ (by norm_num) (by norm_num)) (by norm_num)
  have h4 : toFloat32 (1) = 1 :=
    roundBinary_eval 24 (-126) _ _ 0 8388608 (by norm_num) (by norm_num) (by norm_num)
      (by norm_num) (roundHalfEven_eq _ _ (by norm_num) (by norm_num)) (by norm_num)
  have h5 : toFloat32 (1 * (1 / 2)) = 1 / 2 :=
    roundBinary_eval 24 (-126) _ _ (-1) 8388608 (by norm_num) (by norm_num) (by norm_num)
      (by norm_num) (roundHalfEven_eq _ _ (by norm_num) (by norm_num)) (by norm_num)
  have h6 : toFloat32 (1 - (1 / 2)) = 1 / 2 :=
    roundBinary_eval 24 (-126) _ _ (-1) 8388608 (by norm_num) (by norm_num) (by norm_num)
      (by norm_num) (roundHalfEven_eq _ _ (by norm_num) (by norm_num)) (by norm_num)
  have h7 : toFloat32 (0 * (1 / 2)) = 0 := by
    norm_num [toFloat32, roundBinary]
  have h8 : toFloat32 ((1 / 2) + 0) = 1 / 2 :=
    roundBinary_eval 24 (-126) _ _ (-1) 8388608 (by norm_num) (by norm_num) (by norm_num)
      (by norm_num) (roundHalfEven_eq _ _ (by norm_num) (by norm_num)) (by norm_num)
  have h9 : toFloat32 ((1 / 2) * 255) = 255 / 2 :=
    roundBinary_eval 24 (-126) _ _ 6 16711680 (by norm_num) (by norm_num) (by norm_num)
      (by norm_num) (roundHalfEven_eq _ _ (by norm_num) (by norm_num)) (by norm_num)
  simp only [BlendChannel, e0, e127, e255, Nat.cast_ofNat, Nat.cast_zero, Nat.cast_one]
  simp only [h1, h2, h3, h4, h5, h6, h7, h8, h9]
  exact toUInt8_eq _ _ (by norm_num [e0, e127, e255]) (by norm_num [e0, e127, e255])

/-- The channel values 255 and 255 at `alpha = 1/2` in the arithmetic of the code:
the value that is truncated is `255` and the result is 255. -/
lemma BlendChannel_255_255_1_2 : BlendChannel 255 255 (1 / 2) = 255 := by
  have e255 : ((255 : Fin 256) : Nat) = 255 := rfl
  have h1 : toFloat64 (255 / 255) = 1 :=
    roundBinary_eval 53 (-1022) _ _ 0 4503599627370496 (by norm_num) (by norm_num) (by norm_num)
      (by norm_num) (roundHalfEven_eq _ _ (by norm_num) (by norm_num)) (by norm_num)
  have h2 : toFloat32 (1) = 1 :=
    roundBinary_eval 24 (-126) _ _ 0 8388608 (by norm_num) (by norm_num) (by norm_num)
      (by norm_num) (roundHalfEven_eq _ _ (by norm_num) (by norm_num)) (by norm_num)
  have h3 : toFloat32 (1 * (1 / 2)) = 1 / 2 :=
    roundBinary_eval 24 (-126) _ _ (-1) 8388608 (by norm_num) (by norm_num) (by norm_num)
      (by norm_num) (roundHalfEven_eq _ _ (by norm_num) (by norm_num)) (by norm_num)
  have h4 : toFloat32 (1 - (1 / 2)) = 1 / 2 :=
    roundBinary_eval 24 (-126) _ _ (-1) 8388608 (by norm_num) (by norm_num) (by norm_num)
      (by norm_num) (roundHalfEven_eq _ _ (by norm_num) (by norm_num)) (by norm_num)
  have h5 : toFloat32 ((1 / 2) + (1 / 2)) = 1 :=
    roundBinary_eval 24 (-126) _ _ 0 8388608 (by norm_num) (by norm_num) (by norm_num)
      (by norm_num) (roundHalfEven_eq _ _ (by norm_num) (by norm_num)) (by norm_num)
  have h6 : toFloat32 (1 * 255) = 255 :=
    roundBinary_eval 24 (-126) _ _ 7 16711680 (by norm_num) (by norm_num) (by norm_num)
      (by norm_num) (roundHalfEven_eq _ _ (by norm_num) (by norm_num)) (by norm_num)
  simp only [BlendChannel, e255, Nat.cast_ofNat, Nat.cast_zero, Nat.cast_one]
  simp only [h1, h2, h3, h4, h5, h6]
  exact toUInt8_eq _ _ (by norm_num [e255]) (by norm_num [e255])

/-- The channel values 255 and 255 at `alpha = 1/4` in the arithmetic of the code:
the value that is truncated is `255` and the result is 255. -/
lemma BlendChannel_255_255_1_4 : BlendChannel 255 255 (1 / 4) = 255 := by
  have e255 : ((255 : Fin 256) : Nat) = 255 := rfl
  have h1 : toFloat64 (255 / 255) = 1 :=
    roundBinary_eval 53 (-1022) _ _ 0 4503599627370496 (by norm_num) (by norm_num) (by norm_num)
      (by norm_num) (roundHalfEven_eq _ _ (by norm_num) (by norm_num)) (by norm_num)
  have h2 : toFloat32 (1) = 1 :=
    roundBinary_eval 24 (-126) _ _ 0 8388608 (by norm_num) (by norm_num) (by norm_num)
      (by norm_num) (roundHalfEven_eq _ _ (by norm_num) (by norm_num)) (by norm_num)
  have h3 : toFloat32 (1 * (1 / 4)) = 1 / 4 :=
    roundBinary_eval 24 (-126) _ _ (-2) 8388608 (by norm_num) (by norm_num) (by norm_num)
      (by norm_num) (roundHalfEven_eq _ _ (by norm_num) (by norm_num)) (by norm_num)
  have h4 : toFloat32 (1 - (1 / 4)) = 3 / 4 :=
    roundBinary_eval 24 (-126) _ _ (-1) 12582912 (by norm_num) (by norm_num) (by norm_num)
      (by norm_num) (roundHalfEven_eq _ _ (by norm_num) (by norm_num)) (by norm_num)
  have h5 : toFloat32 (1 * (3 / 4)) = 3 / 4 :=
    roundBinary_eval 24 (-126) _ _ (-1) 12582912 (by norm_num) (by norm_num) (by norm_num)
      (by norm_num) (roundHalfEven_eq _ _ (by norm_num) (by norm_num)) (by norm_num)
  have h6 : toFloat32 ((1 / 4) + (3 / 4)) = 1 :=
    roundBinary_eval 24 (-126) _ _ 0 8388608 (by norm_num) (by norm_num) (by norm_num)
      (by norm_num) (roundHalfEven_eq _ _ (by norm_num) (by norm_num)) (by norm_num)
  have h7 : toFloat32 (1 * 255) = 255 :=
    roundBinary_eval 24 (-126) _ _ 7 16711680 (by norm_num) (by norm_num) (by norm_num)
      (by norm_num) (roundHalfEven_eq _ _ (by norm_num) (by norm_num)) (by norm_num)
  simp only [BlendChannel, e255, Nat.cast_ofNat, Nat.cast_zero, Nat.cast_one]
  simp only [h1, h2, h3, h4, h5, h6, h7]
  exact toUInt8_eq _ _ (by norm_num [e255]) (by norm_num [e255])

/-- The channel values 255 and 0 at `alpha = 1/4` in the arithmetic of the code:
the value that is truncated is `765 / 4` and the result is 191. -/
lemma BlendChannel_255_0_1_4 : BlendChannel 255 0 (1 / 4) = 191 := by
  have e0 : ((0 : Fin 256) : Nat) = 0 := rfl
  have e191 : ((191 : Fin 256) : Nat) = 191 := rfl
  have e255 : ((255 : Fin 256) : Nat) = 255 := rfl
  have h1 : toFloat64 (255 / 255) = 1 :=
    roundBinary_eval 53 (-1022) _ _ 0 4503599627370496 (by norm_num) (by norm_num) (by norm_num)
      (by norm_num) (roundHalfEven_eq _ _ (by norm_num) (by norm_num)) (by norm_num)
  have h2 : toFloat32 (1) = 1 :=
    roundBinary_eval 24 (-126) _ _ 0 8388608 (by norm_num) (by norm_num) (by norm_num)
      (by norm_num) (roundHalfEven_eq _ _ (by norm_num) (by norm_num)) (by norm_num)
  have h3 : toFloat64 (0 / 255) = 0 := by
    norm_num [toFloat64, roundBinary]
  have h4 : toFloat32 (0) = 0 := by
    norm_num [toFloat32, roundBinary]
  have h5 : toFloat32 (0 * (1 / 4)) = 0 := by
    norm_num [toFloat32, roundBinary]
  have h6 : toFloat32 (1 - (1 / 4)) = 3 / 4 :=
    roundBinary_eval 24 (-126) _ _ (-1) 12582912 (by norm_num) (by norm_num) (by norm_num)
      (by norm_num) (roundHalfEven_eq _ _ (by norm_num) (by norm_num)) (by norm_num)
  have h7 : toFloat32 (1 * (3 / 4)) = 3 / 4 :=
    roundBinary_eval 24 (-126) _ _ (-1) 12582912 (by norm_num) (by norm_num) (by norm_num)
      (by norm_num) (roundHalfEven_eq _ _ (by norm_num) (by norm_num)) (by norm_num)
  have h8 : toFloat32 (0 + (3 / 4)) = 3 / 4 :=
    roundBinary_eval 24 (-126) _ _ (-1) 12582912 (by norm_num) (by norm_num) (by norm_num)
      (by norm_num) (roundHalfEven_eq _ _ (by norm_num) (by norm_num)) (by norm_num)
  have h9 : toFloat32 ((3 / 4) * 255) = 765 / 4 :=
    roundBinary_eval 24 (-126) _ _ 7 12533760 (by norm_num) (by norm_num) (by norm_num)
      (by norm_num) (roundHalfEven_eq _ _ (by norm_num) (by norm_num)) (by norm_num)
  simp only [BlendChannel, e0, e191, e255, Nat.cast_ofNat, Nat.cast_zero, Nat.cast_one]
  simp only [h1, h2, h3, h4, h5, h6, h7, h8, h9]
  exact toUInt8_eq _ _ (by norm_num [e0, e191, e255]) (by norm_num [e0, e191, e255])

/-- The value of `GetColor` between two adjacent gradient points: the colour
that `LinearInterpColor` gives for the two colours and the `alpha` that the
code computes. -/
lemma GetColor_between (self : GradientColor) (gradientPos : Double)
    (s1 s2 : List GradientPoint) (g0 g1 : GradientPoint)
    (hwf : self.WellFormed) (hasc : self.Ascending)
    (hadj : self.m_pGradientPoints = s1 ++ g0 :: g1 :: s2)
    (h0 : g0.pos ≤ gradientPos) (h1 : gradientPos < g1.pos) :
    self.GetColor gradientPos =
      some (LinearInterpColor g0.color g1.color
        (toFloat32 (toFloat64 (toFloat64 (gradientPos - g0.pos) /
          toFloat64 (g1.pos - g0.pos))))) := by
  simp only [GradientColor.WellFormed, GradientColor.Ascending] at hwf hasc
  rw [hadj] at hwf hasc
  have hlen : (s1 ++ g0 :: g1 :: s2).length = s1.length + 2 + s2.length := by
    simp only [List.length_append, List.length_cons]
    omega
  have hn : self.m_gradientPointCount.toNat = s1.length + 2 + s2.length := by omega
  have hg0 : (s1 ++ g0 :: g1 :: s2).getD s1.length default = g0 := by
    rw [List.getD_append_right _ _ _ _ (le_refl _)]
    simp
  have hg1 : (s1 ++ g0 :: g1 :: s2).getD (s1.length + 1) default = g1 := by
    rw [List.getD_append_right _ _ _ _ (by omega)]
    simp
  have hidx : GradientColor.findIndexLoop (s1 ++ g0 :: g1 :: s2) gradientPos
      (s1.length + 2 + s2.length) 0 = 0 + (s1.length + 1) := by
    apply findIndexLoop_break _ _ (s1.length + 1) _ 0 (by omega)
    · intro j _ hj
      rw [not_lt]
      by_cases hjs : j < s1.length
      · rw [List.getD_append _ _ _ _ hjs, List.getD_eq_getElem _ _ hjs]
        have := (List.pairwise_append.mp hasc).2.2 _ (List.getElem_mem hjs) g0
          (List.mem_cons_self _ _)
        exact le_trans (le_of_lt this) h0
      · have : j = s1.length := by omega
        rw [this, hg0]
        exact h0
    · rw [zero_add, hg1]
      exact h1
  simp only [GradientColor.GetColor, hadj, hn, hidx]
  rw [if_pos (by omega)]
  have e1 : ClampValue (((0 + (s1.length + 1) : Nat) : Int) - 1) 0
      (self.m_gradientPointCount - 1) = (s1.length : Int) := by
    simp only [ClampValue]
    rw [if_neg (by omega), if_neg (by omega)]
    omega
  have e2 : ClampValue ((0 + (s1.length + 1) : Nat) : Int) 0
      (self.m_gradientPointCount - 1) = ((s1.length + 1 : Nat) : Int) := by
    simp only [ClampValue]
    rw [if_neg (by omega), if_neg (by omega)]
    omega
  rw [e1, e2, if_neg (by omega)]
  simp only [Int.toNat_ofNat, hg0, hg1]

/-- The `alpha` that `GetColor` computes at the position `5/16` between the
gradient points at `0.0` and `1.0`: every operation is exact. -/
lemma alpha_5_16 :
    toFloat32 (toFloat64 (toFloat64 (5 / 16 - 0) / toFloat64 (1 - 0))) = 5 / 16 := by
  have a1 : toFloat64 (5 / 16) = 5 / 16 :=
    roundBinary_eval 53 (-1022) _ _ (-2) 5629499534213120 (by norm_num) (by norm_num)
      (by norm_num) (by norm_num) (roundHalfEven_eq _ _ (by norm_num) (by norm_num))
      (by norm_num)
  have a2 : toFloat64 1 = 1 :=
    roundBinary_eval 53 (-1022) _ _ 0 4503599627370496 (by norm_num) (by norm_num)
      (by norm_num) (by norm_num) (roundHalfEven_eq _ _ (by norm_num) (by norm_num))
      (by norm_num)
  have a3 : toFloat32 (5 / 16) = 5 / 16 :=
    roundBinary_eval 24 (-126) _ _ (-2) 10485760 (by norm_num) (by norm_num)
      (by norm_num) (by norm_num) (roundHalfEven_eq _ _ (by norm_num) (by norm_num))
      (by norm_num)
  rw [sub_zero, sub_zero, a1, a2, div_one, a1, a3]

/-- C16, at an input where the code does not return the linear interpolation:
the gradient with the points `0.0` and `1.0`, both of the colour
`(49, 53, 57, 255)`, has two points strictly ascending by position, and the
position `5/16` lies between them. The linear interpolation of a channel
value with itself is that value, at every `alpha`; `GetColor (5/16)` returns
`(48, 52, 56, 255)`: `BlendChannel` divides the channel values by 255 and
multiplies the blend by 255 in binary32 arithmetic and truncates the result,
which is just below 49, 53 and 57. -/
theorem GetColor_flat_gradient_not_interpolated :
    ((GradientColor.GradientColor 0).Clear.AddGradientPoints
      [(0, Color.Color 49 53 57 255), (1, Color.Color 49 53 57 255)]).self =
      GradientColor.mk 2 [⟨0, Color.Color 49 53 57 255⟩, ⟨1, Color.Color 49 53 57 255⟩] ∧
    (GradientColor.mk 2 [⟨0, Color.Color 49 53 57 255⟩,
      ⟨1, Color.Color 49 53 57 255⟩]).WellFormed ∧
    (GradientColor.mk 2 [⟨0, Color.Color 49 53 57 255⟩,
      ⟨1, Color.Color 49 53 57 255⟩]).Ascending ∧
    (0 : Double) ≤ 5 / 16 ∧ (5 / 16 : Double) < 1 ∧
    (GradientColor.mk 2 [⟨0, Color.Color 49 53 57 255⟩,
      ⟨1, Color.Color 49 53 57 255⟩]).GetColor (5 / 16) =
      some (Color.Color 48 52 56 255) ∧
    (∀ alpha : ℚ, (1 - alpha) * 49 + alpha * 49 = 49 ∧ (1 - alpha) * 53 + alpha * 53 = 53 ∧
      (1 - alpha) * 57 + alpha * 57 = 57) ∧
    Color.Color 48 52 56 255 ≠ Color.Color 49 53 57 255 := by
  refine ⟨by decide, by decide, by decide, by norm_num, by norm_num, ?_, ?_, by decide⟩
  · rw [GetColor_between _ (5 / 16) [] [] ⟨0, Color.Color 49 53 57 255⟩
      ⟨1, Color.Color 49 53 57 255⟩ (by decide) (by decide) rfl (by norm_num) (by norm_num)]
    simp only [alpha_5_16, LinearInterpColor, Color.Color, BlendChannel_49_49_5_16,
      BlendChannel_53_53_5_16, BlendChannel_57_57_5_16, BlendChannel_255_255_5_16]
  · intro alpha
    refine ⟨by ring, by ring, by ring⟩

/-- The `alpha` that `GetColor` computes at the position `-1/2` between the
gradient points at `-1.0` and `0.0`: every operation is exact. -/
lemma alpha_1_2 :
    toFloat32 (toFloat64 (toFloat64 (-1 / 2 - -1) / toFloat64 (0 - -1))) = 1 / 2 := by
  have a1 : toFloat64 (1 / 2) = 1 / 2 :=
    roundBinary_eval 53 (-1022) _ _ (-1) 4503599627370496 (by norm_num) (by norm_num)
      (by norm_num) (by norm_num) (roundHalfEven_eq _ _ (by norm_num) (by norm_num))
      (by norm_num)
  have a2 : toFloat64 1 = 1 :=
    roundBinary_eval 53 (-1022) _ _ 0 4503599627370496 (by norm_num) (by norm_num)
      (by norm_num) (by norm_num) (roundHalfEven_eq _ _ (by norm_num) (by norm_num))
      (by norm_num)
  have a3 : toFloat32 (1 / 2) = 1 / 2 :=
    roundBinary_eval 24 (-126) _ _ (-1) 8388608 (by norm_num) (by norm_num)
      (by norm_num) (by norm_num) (roundHalfEven_eq _ _ (by norm_num) (by norm_num))
      (by norm_num)
  have e1 : (-1 / 2 - -1 : ℚ) = 1 / 2 := by norm_num
  have e2 : (0 - -1 : ℚ) = 1 := by norm_num
  rw [e1, e2, a1, a2, div_one, a1, a3]

/-- The `alpha` that `GetColor` computes at the position `1/4` between the
gradient points at `0.0` and `1.0`: every operation is exact. -/
lemma alpha_1_4 :
    toFloat32 (toFloat64 (toFloat64 (1 / 4 - 0) / toFloat64 (1 - 0))) = 1 / 4 := by
  have a1 : toFloat64 (1 / 4) = 1 / 4 :=
    roundBinary_eval 53 (-1022) _ _ (-2) 4503599627370496 (by norm_num) (by norm_num)
      (by norm_num) (by norm_num) (roundHalfEven_eq _ _ (by norm_num) (by norm_num))
      (by norm_num)
  have a2 : toFloat64 1 = 1 :=
    roundBinary_eval 53 (-1022) _ _ 0 4503599627370496 (by norm_num) (by norm_num)
      (by norm_num) (by norm_num) (roundHalfEven_eq _ _ (by norm_num) (by norm_num))
      (by norm_num)
  have a3 : toFloat32 (1 / 4) = 1 / 4 :=
    roundBinary_eval 24 (-126) _ _ (-2) 8388608 (by norm_num) (by norm_num)
      (by norm_num) (by norm_num) (roundHalfEven_eq _ _ (by norm_num) (by norm_num))
      (by norm_num)
  rw [sub_zero, sub_zero, a1, a2, div_one, a1, a3]

/-- The example of the documentation of `GradientColor`, in the arithmetic of
the code: with the points `-1.0` black, `0.0` white and `1.0` red,
`GetColor (-0.5)` is the grey `(127, 127, 127, 255)` halfway between black and
white, and `GetColor (0.25)` is the colour `(255, 191, 191, 255)` one quarter
of the way from white to red. -/
lemma GetColor_documentation_example :
    ((GradientColor.GradientColor 0).Clear.AddGradientPoints
      [(-1, Color.Color 0 0 0 255), (0, Color.Color 255 255 255 255),
        (1, Color.Color 255 0 0 255)]).self.GetColor (-1 / 2) =
      some (Color.Color 127 127 127 255) ∧
    ((GradientColor.GradientColor 0).Clear.AddGradientPoints
      [(-1, Color.Color 0 0 0 255), (0, Color.Color 255 255 255 255),
        (1, Color.Color 255 0 0 255)]).self.GetColor (1 / 4) =
      some (Color.Color 255 191 191 255) := by
  have harr : ((GradientColor.GradientColor 0).Clear.AddGradientPoints
      [(-1, Color.Color 0 0 0 255), (0, Color.Color 255 255 255 255),
        (1, Color.Color 255 0 0 255)]).self =
      GradientColor.mk 3 [⟨-1, Color.Color 0 0 0 255⟩, ⟨0, Color.Color 255 255 255 255⟩,
        ⟨1, Color.Color 255 0 0 255⟩] := by decide
  rw [harr]
  constructor
  · rw [GetColor_between _ (-1 / 2) [] [⟨1, Color.Color 255 0 0 255⟩]
      ⟨-1, Color.Color 0 0 0 255⟩ ⟨0, Color.Color 255 255 255 255⟩ (by decide) (by decide) rfl
      (by norm_num) (by norm_num)]
    simp only [alpha_1_2, LinearInterpColor, Color.Color, BlendChannel_0_255_1_2,
      BlendChannel_255_255_1_2]
  · rw [GetColor_between _ (1 / 4) [⟨-1, Color.Color 0 0 0 255⟩] []
      ⟨0, Color.Color 255 255 255 255⟩ ⟨1, Color.Color 255 0 0 255⟩ (by decide) (by decide) rfl
      (by norm_num) (by norm_num)]
    simp only [alpha_1_4, LinearInterpColor, Color.Color, BlendChannel_255_255_1_4,
      BlendChannel_255_0_1_4]

/-! ## Noise maps -/

/-- C18: for every noise map and all integers `x`, `y`: when the map is empty
(it has no buffer), or `x < 0`, or `x >= width`, or `y < 0`, or `y >= height`,
`GetValue (x, y)` returns the border value of the map; otherwise it returns
the value stored at `(x, y)`, which is the value at the slab pointer of
`(x, y)` in the buffer. -/
theorem NoiseMap_GetValue_border_or_stored (self : NoiseMap) (x y : Int) :
    ((self.m_pNoiseMap = none ∨ x < 0 ∨ x ≥ self.GetWidth ∨ y < 0 ∨ y ≥ self.GetHeight) →
      self.GetValue x y = self.GetBorderValue) ∧
    (∀ buffer, self.m_pNoiseMap = some buffer →
      0 ≤ x ∧ x < self.GetWidth ∧ 0 ≤ y ∧ y < self.GetHeight →
      self.GetValue x y = buffer.getD (self.GetSlabPtr x y) 0) := by
  simp only [NoiseMap.GetWidth, NoiseMap.GetHeight, NoiseMap.GetBorderValue,
    NoiseMap.GetValue]
  constructor
  · intro h
    cases hbuf : self.m_pNoiseMap with
    | none => rfl
    | some buffer =>
      simp only
      rw [if_neg]
      rw [hbuf] at h
      simp only [reduceCtorEq, false_or] at h
      omega
  · intro buffer hbuf h
    rw [hbuf]
    simp only
    rw [if_pos ⟨h.1, h.2.1, h.2.2.1, h.2.2.2⟩]

/-- C19: for every noise map and all integers `width`, `height`, when the
allocation succeeds, `SetSize (width, height)` throws the invalid-parameter
exception if and only if `width < 0` or `height < 0` or `width > 32767` or
`height > 32767`, and it returns otherwise; when it throws, the map is
unchanged; when it returns with both positive, the map has exactly that width
and height; when it returns with `width = 0` or `height = 0`, the map becomes
empty, with width and height 0. -/
theorem NoiseMap_SetSize_fails_iff (CalcStride : Int → Nat)
    (CalcMinMemUsage : Int → Int → Nat) (alloc : Nat → Option (List Float32))
    (self : NoiseMap) (width height : Int) (halloc : ∀ n, alloc n ≠ none) :
    ((self.SetSize CalcStride CalcMinMemUsage alloc width height).thrown =
        some Exception.ExceptionInvalidParam ↔
      (width < 0 ∨ height < 0 ∨ width > 32767 ∨ height > 32767)) ∧
    ((self.SetSize CalcStride CalcMinMemUsage alloc width height).thrown = none ↔
      ¬ (width < 0 ∨ height < 0 ∨ width > 32767 ∨ height > 32767)) ∧
    ((self.SetSize CalcStride CalcMinMemUsage alloc width height).thrown ≠ none →
      (self.SetSize CalcStride CalcMinMemUsage alloc width height).self = self) ∧
    ((self.SetSize CalcStride CalcMinMemUsage alloc width height).thrown = none →
      0 < width ∧ 0 < height →
      (self.SetSize CalcStride CalcMinMemUsage alloc width height).self.GetWidth = width ∧
      (self.SetSize CalcStride CalcMinMemUsage alloc width height).self.GetHeight = height) ∧
    ((self.SetSize CalcStride CalcMinMemUsage alloc width height).thrown = none →
      width = 0 ∨ height = 0 →
      (self.SetSize CalcStride CalcMinMemUsage alloc width height).self.m_pNoiseMap = none ∧
      (self.SetSize CalcStride CalcMinMemUsage alloc width height).self.GetWidth = 0 ∧
      (self.SetSize CalcStride CalcMinMemUsage alloc width height).self.GetHeight = 0) := by
  simp only [NoiseMap.SetSize, RASTER_MAX_WIDTH, RASTER_MAX_HEIGHT, NoiseMap.GetWidth,
    NoiseMap.GetHeight]
  by_cases h1 : width < 0 ∨ height < 0 ∨ width > 32767 ∨ height > 32767
  · rw [if_pos h1]
    simp only [h1, not_true_eq_false, reduceCtorEq, ne_eq, not_false_eq_true, true_iff,
      iff_false, forall_true_left, false_implies, and_self, and_true]
  · rw [if_neg h1]
    by_cases h2 : width = 0 ∨ height = 0
    · rw [if_pos h2]
      simp only [h1, h2, not_false_eq_true, reduceCtorEq, ne_eq, not_true_eq_false, iff_false,
        true_iff, false_implies, forall_true_left, true_and, NoiseMap.DeleteNoiseMapAndReset,
        NoiseMap.InitObj, and_self, and_true]
      omega
    · rw [if_neg h2]
      by_cases h3 : self.m_memUsed < CalcMinMemUsage width height
      · simp only [if_pos h3]
        cases ha : alloc (CalcMinMemUsage width height) with
        | none => exact absurd ha (halloc _)
        | some buffer =>
          simp only [h1, not_false_eq_true, reduceCtorEq, ne_eq, not_true_eq_false, iff_false,
            true_iff, false_implies, forall_true_left, true_and, and_self, implies_true]
          omega
      · simp only [if_neg h3]
        simp only [h1, not_false_eq_true, reduceCtorEq, ne_eq, not_true_eq_false, iff_false,
          true_iff, false_implies, forall_true_left, true_and, and_self, implies_true]
        omega

/-- Witness of C19: on the empty noise map, with rows rounded up to a multiple
of four values and an allocation that succeeds, `SetSize (3, 2)` returns and
`SetSize (-1, 2)` throws. -/
theorem NoiseMap_SetSize_fails_iff_witness :
    (NoiseMap.NoiseMap.SetSize (fun w => ((w + 3) / 4 * 4).toNat)
      (fun w h => ((w + 3) / 4 * 4).toNat * h.toNat)
      (fun n => some (List.replicate n 0)) 3 2).thrown = none ∧
    (NoiseMap.NoiseMap.SetSize (fun w => ((w + 3) / 4 * 4).toNat)
      (fun w h => ((w + 3) / 4 * 4).toNat * h.toNat)
      (fun n => some (List.replicate n 0)) 3 2).self.GetWidth = 3 ∧
    (NoiseMap.NoiseMap.SetSize (fun w => ((w + 3) / 4 * 4).toNat)
      (fun w h => ((w + 3) / 4 * 4).toNat * h.toNat)
      (fun n => some (List.replicate n 0)) 3 2).self.GetHeight = 2 ∧
    (NoiseMap.NoiseMap.SetSize (fun w => ((w + 3) / 4 * 4).toNat)
      (fun w h => ((w + 3) / 4 * 4).toNat * h.toNat)
      (fun n => some (List.replicate n 0)) (-1) 2).thrown =
        some Exception.ExceptionInvalidParam := by
  have h := fun w h => NoiseMap_SetSize_fails_iff (fun w => ((w + 3) / 4 * 4).toNat)
    (fun w h => ((w + 3) / 4 * 4).toNat * h.toNat)
    (fun n => some (List.replicate n 0)) NoiseMap.NoiseMap w h (fun n => by simp)
  have h1 := (h 3 2).2.1.mpr (by decide)
  exact ⟨h1, ((h 3 2).2.2.2.1 h1 (by decide)).1, ((h 3 2).2.2.2.1 h1 (by decide)).2,
    (h (-1) 2).1.mpr (by decide)⟩

/-- The function `memcpy` keeps the length of the destination. -/
lemma memcpy_length (dest : List Float32) (destOffset : Nat) (source : List Float32)
    (sourceOffset : Nat) :
    ∀ count, (memcpy dest destOffset source sourceOffset count).length = dest.length := by
  intro count
  induction count with
  | zero => rfl
  | succ n ih => simp only [memcpy, List.length_set, ih]

/-- The elements of the destination after `memcpy`. -/
lemma memcpy_getElem? (dest : List Float32) (destOffset : Nat) (source : List Float32)
    (sourceOffset : Nat) :
    ∀ count j, (memcpy dest destOffset source sourceOffset count)[j]? =
      if destOffset ≤ j ∧ j < destOffset + count ∧ j < dest.length then
        some (source.getD (sourceOffset + (j - destOffset)) 0)
      else dest[j]? := by
  intro count
  induction count with
  | zero =>
    intro j
    simp only [memcpy, add_zero]
    rw [if_neg (by omega)]
  | succ n ih =>
    intro j
    simp only [memcpy]
    rw [List.getElem?_set, memcpy_length, ih]
    by_cases hj : destOffset + n = j
    · subst hj
      have e : destOffset + n - destOffset = n := by omega
      rw [e]
      split_ifs <;> first | rfl | omega | skip
      rw [List.getElem?_eq_none (by omega)]
    · split_ifs <;> first | rfl | omega

/-- The state after `SetSize` with a positive width and height within the
raster limits, on a noise map that satisfies the class invariant, when the
allocation succeeds: the map has a buffer that holds all the rows. -/
lemma SetSize_positive (CalcStride : Int → Nat) (CalcMinMemUsage : Int → Int → Nat)
    (alloc : Nat → Option (List Float32)) (self : NoiseMap) (width height : Int)
    (hvalid : self.Valid)
    (hw : 0 < width ∧ width ≤ RASTER_MAX_WIDTH) (hh : 0 < height ∧ height ≤ RASTER_MAX_HEIGHT)
    (hstride : ∀ w : Int, 0 < w → w ≤ (CalcStride w : Int))
    (hmem : ∀ w h : Int, 0 < w → 0 < h → CalcStride w * h.toNat ≤ CalcMinMemUsage w h)
    (halloc : ∀ n, ∃ buffer, alloc n = some buffer ∧ buffer.length = n) :
    (self.SetSize CalcStride CalcMinMemUsage alloc width height).thrown = none ∧
    ∃ dest, (self.SetSize CalcStride CalcMinMemUsage alloc width height).self.m_pNoiseMap =
        some dest ∧
      dest.length = (self.SetSize CalcStride CalcMinMemUsage alloc width height).self.m_memUsed ∧
      CalcStride width * height.toNat ≤ dest.length ∧
      (self.SetSize CalcStride CalcMinMemUsage alloc width height).self.m_stride =
        (CalcStride width : Int) ∧
      (self.SetSize CalcStride CalcMinMemUsage alloc width height).self.m_width = width ∧
      (self.SetSize CalcStride CalcMinMemUsage alloc width height).self.m_height = height := by
  simp only [RASTER_MAX_WIDTH, RASTER_MAX_HEIGHT] at hw hh
  have hpos : 0 < CalcStride width * height.toNat := by
    have h1 := hstride width hw.1
    exact Nat.mul_pos (by omega) (by omega)
  simp only [NoiseMap.SetSize, RASTER_MAX_WIDTH, RASTER_MAX_HEIGHT]
  rw [if_neg (by omega), if_neg (by omega)]
  by_cases h3 : self.m_memUsed < CalcMinMemUsage width height
  · simp only [if_pos h3]
    obtain ⟨buffer, hbuf, hlen⟩ := halloc (CalcMinMemUsage width height)
    rw [hbuf]
    refine ⟨rfl, buffer, rfl, hlen, ?_, rfl, rfl, rfl⟩
    rw [hlen]
    exact hmem width height hw.1 hh.1
  · rw [if_neg h3]
    refine ⟨rfl, ?_⟩
    have hm := hmem width height hw.1 hh.1
    obtain ⟨-, -, -, -, hbuf⟩ := hvalid
    cases hp : self.m_pNoiseMap with
    | none =>
      rw [hp] at hbuf
      simp only at hbuf
      omega
    | some dest =>
      rw [hp] at hbuf
      simp only at hbuf
      exact ⟨dest, rfl, hbuf.2.2.1, by omega, rfl, rfl, rfl⟩

/-- The copy loop of `CopyNoiseMap` when `this` and the source are different
objects that both have a buffer: only the buffer of `this` changes; it keeps
its length, the values outside the rows that are copied stay, and, when a row
fits in the stride of `this`, the value at `(x, y)` of each row that is copied
is that of the source. -/
lemma copySlabLoop_distinct (this source : Nat) (hne : this ≠ source)
    (sourceBuffer : List Float32) :
    ∀ (remaining y0 : Nat) (store : NoiseMap.Store) (dest : List Float32),
      (store source).m_pNoiseMap = some sourceBuffer →
      (store this).m_pNoiseMap = some dest →
      ∃ dest',
        NoiseMap.copySlabLoop this source remaining y0 store =
          Function.update store this { store this with m_pNoiseMap := some dest' } ∧
        dest'.length = dest.length ∧
        (∀ j, (∀ y, y0 ≤ y → y < y0 + remaining →
            ¬ ((store this).m_stride.toNat * y ≤ j ∧
              j < (store this).m_stride.toNat * y + (store source).m_width.toNat)) →
          dest'[j]? = dest[j]?) ∧
        ((store source).m_width.toNat ≤ (store this).m_stride.toNat →
          ∀ x y, x < (store source).m_width.toNat → y0 ≤ y → y < y0 + remaining →
            (store this).m_stride.toNat * y + x < dest.length →
            dest'[(store this).m_stride.toNat * y + x]? =
              some (sourceBuffer.getD ((store source).m_stride.toNat * y + x) 0)) := by
  intro remaining
  induction remaining with
  | zero =>
    intro y0 store dest _ hdest
    refine ⟨dest, ?_, rfl, fun _ _ => rfl, fun _ x y _ h1 h2 _ => by omega⟩
    simp only [NoiseMap.copySlabLoop]
    rw [← hdest]
    exact (Function.update_eq_self this store).symm
  | succ r ih =>
    intro y0 store dest hsrc hdest
    have hstep : NoiseMap.copySlab store this source y0 =
        Function.update store this { store this with
          m_pNoiseMap := some (memcpy dest ((store this).m_stride.toNat * y0) sourceBuffer
            ((store source).m_stride.toNat * y0) (store source).m_width.toNat) } := by
      simp only [NoiseMap.copySlab, hsrc, hdest, NoiseMap.GetSlabPtr, NoiseMap.GetWidth,
        Int.toNat_zero, zero_add, Int.toNat_ofNat]
    have hsrc' : (NoiseMap.copySlab store this source y0 source).m_pNoiseMap =
        some sourceBuffer := by
      rw [hstep, Function.update_noteq (Ne.symm hne)]
      exact hsrc
    have hthis' : NoiseMap.copySlab store this source y0 this =
        { store this with
          m_pNoiseMap := some (memcpy dest ((store this).m_stride.toNat * y0) sourceBuffer
            ((store source).m_stride.toNat * y0) (store source).m_width.toNat) } := by
      rw [hstep, Function.update_same]
    have hsource' : NoiseMap.copySlab store this source y0 source = store source := by
      rw [hstep, Function.update_noteq (Ne.symm hne)]
    obtain ⟨dest', hloop, hlen, hunch, hcopied⟩ :=
      ih (y0 + 1) (NoiseMap.copySlab store this source y0) _ hsrc'
        (by rw [hthis'])
    rw [hthis', hsource'] at hunch hcopied
    simp only at hunch hcopied
    refine ⟨dest', ?_, ?_, ?_, ?_⟩
    · simp only [NoiseMap.copySlabLoop]
      rw [hloop, hthis', hstep, Function.update_idem]
    · rw [hlen, memcpy_length]
    · intro j hj
      rw [hunch j (fun y h1 h2 => hj y (by omega) (by omega)), memcpy_getElem?]
      have := hj y0 (le_refl _) (by omega)
      rw [if_neg (by omega)]
    · intro hw x y hx h1 h2 hxy
      by_cases hy : y = y0
      · subst hy
        rw [hunch, memcpy_getElem?]
        · rw [if_pos (by omega)]
          congr 2
          omega
        · intro y' h3 _
          have := Nat.mul_le_mul_left (store this).m_stride.toNat h3
          rw [Nat.mul_succ] at this
          omega
      · exact hcopied hw x y hx (by omega) (by omega) (by rw [memcpy_length]; exact hxy)

/-- The result of `CopyNoiseMap` when `this` and the source are different
objects that satisfy the class invariant, when the allocation succeeds, a row
fits in the stride that `CalcStride` gives and all rows fit in the memory that
`CalcMinMemUsage` gives: no exception; the source and every other noise map
are unchanged; the noise map at `this` has the width, the height and the
border value of the source, its `GetValue (x, y)` is that of the source, and
it satisfies the class invariant. -/
lemma CopyNoiseMap_distinct (CalcStride : Int → Nat) (CalcMinMemUsage : Int → Int → Nat)
    (alloc : Nat → Option (List Float32)) (store : NoiseMap.Store) (this source : Nat)
    (x y : Int) (hne : this ≠ source)
    (hthis : (store this).Valid) (hsource : (store source).Valid)
    (hstride : ∀ w : Int, 0 < w → w ≤ (CalcStride w : Int))
    (hmem : ∀ w h : Int, 0 < w → 0 < h → CalcStride w * h.toNat ≤ CalcMinMemUsage w h)
    (halloc : ∀ n, ∃ buffer, alloc n = some buffer ∧ buffer.length = n) :
    (NoiseMap.CopyNoiseMap CalcStride CalcMinMemUsage alloc store this source).thrown = none ∧
    (∀ other, other ≠ this →
      (NoiseMap.CopyNoiseMap CalcStride CalcMinMemUsage alloc store this source).self other =
        store other) ∧
    ((NoiseMap.CopyNoiseMap CalcStride CalcMinMemUsage alloc store this source).self
      this).m_width = (store source).m_width ∧
    ((NoiseMap.CopyNoiseMap CalcStride CalcMinMemUsage alloc store this source).self
      this).m_height = (store source).m_height ∧
    ((NoiseMap.CopyNoiseMap CalcStride CalcMinMemUsage alloc store this source).self
      this).m_borderValue = (store source).m_borderValue ∧
    ((NoiseMap.CopyNoiseMap CalcStride CalcMinMemUsage alloc store this source).self
      this).GetValue x y = (store source).GetValue x y ∧
    ((NoiseMap.CopyNoiseMap CalcStride CalcMinMemUsage alloc store this source).self
      this).Valid := by
  obtain ⟨hw0, hw1, hh0, hh1, hbuf⟩ := hsource
  have hupd : ∀ m : NoiseMap, Function.update store this m source = store source :=
    fun m => Function.update_noteq (Ne.symm hne) _ _
  cases hp : (store source).m_pNoiseMap with
  | none =>
    rw [hp] at hbuf
    simp only at hbuf
    obtain ⟨hw, hh, -⟩ := hbuf
    have hsize : (store this).SetSize CalcStride CalcMinMemUsage alloc 0 0 =
        ⟨none, (store this).InitObj⟩ := by
      simp [NoiseMap.SetSize, RASTER_MAX_WIDTH, RASTER_MAX_HEIGHT,
        NoiseMap.DeleteNoiseMapAndReset]
    simp only [NoiseMap.CopyNoiseMap, NoiseMap.GetWidth, NoiseMap.GetHeight, hw, hh, hsize,
      hupd, Int.toNat_zero, NoiseMap.copySlabLoop, Function.update_same,
      Function.update_idem]
    refine ⟨trivial, fun other ho => Function.update_noteq ho _ _, ?_, ?_, ?_, ?_, ?_⟩
    · rfl
    · rfl
    · trivial
    · simp [NoiseMap.GetValue, NoiseMap.InitObj, hp]
    · simp [NoiseMap.Valid, NoiseMap.InitObj, RASTER_MAX_WIDTH, RASTER_MAX_HEIGHT]
  | some sourceBuffer =>
    rw [hp] at hbuf
    simp only at hbuf
    obtain ⟨hw, hh, -, -, -⟩ := hbuf
    obtain ⟨hthrown, dest, hdest, hlen, hfit, hs, hwidth, hheight⟩ :=
      SetSize_positive CalcStride CalcMinMemUsage alloc (store this) (store source).m_width
        (store source).m_height hthis ⟨hw, hw1⟩ ⟨hh, hh1⟩ hstride hmem halloc
    have hst := hstride (store source).m_width hw
    obtain ⟨dest', hloop, hlen', -, hcopied⟩ :=
      copySlabLoop_distinct this source hne sourceBuffer (store source).m_height.toNat 0
        (Function.update store this
          ((store this).SetSize CalcStride CalcMinMemUsage alloc (store source).m_width
            (store source).m_height).self) dest
        (by rw [hupd]; exact hp) (by rw [Function.update_same]; exact hdest)
    rw [Function.update_same, hupd, hs] at hcopied
    simp only [Int.toNat_ofNat] at hcopied
    simp only [NoiseMap.CopyNoiseMap, NoiseMap.GetWidth, NoiseMap.GetHeight, hthrown, hupd,
      hloop, Function.update_same, Function.update_idem]
    refine ⟨trivial, fun other ho => Function.update_noteq ho _ _, hwidth, hheight, trivial,
      ?_, ?_⟩
    · simp only [NoiseMap.GetValue, NoiseMap.GetSlabPtr, hp, hwidth, hheight, hs]
      by_cases hin : x ≥ 0 ∧ x < (store source).m_width ∧ y ≥ 0 ∧ y < (store source).m_height
      · rw [if_pos hin, if_pos hin]
        have hc := hcopied (by omega) x.toNat y.toNat (by omega) (by omega) (by omega) (by
          have h1 : y.toNat + 1 ≤ (store source).m_height.toNat := by omega
          have h2 := Nat.mul_le_mul_left (CalcStride (store source).m_width) h1
          rw [Nat.mul_succ] at h2
          omega)
        simp only [Int.toNat_ofNat]
        rw [List.getD_eq_getElem?_getD, Nat.add_comm, hc, Nat.add_comm]
        rfl
      · rw [if_neg hin, if_neg hin]
    · simp only [NoiseMap.Valid, hwidth, hheight, hs]
      refine ⟨hw0, hw1, hh0, hh1, hw, hh, ?_, hst, ?_⟩
      · rw [hlen', hlen]
      · rw [← hlen]
        simpa using hfit

/-- C20, at the input where the code changes the source: the empty noise map
with the border value 5 satisfies the class invariant and its `GetValue` is 5
everywhere; assigned to itself (`a = a`, so that `this` and `rhs` are the same
object), `SetSize (0, 0)` resets the object, and with it the border value,
before the border value of the source is read, so that the assignment returns
normally with the border value 0 and `GetValue` 0: the source has changed, and
the map does not have the border value the source had. Whatever `CalcStride`,
`CalcMinMemUsage` and the allocation are. -/
theorem NoiseMap_self_assignment_resets_border (CalcStride : Int → Nat)
    (CalcMinMemUsage : Int → Int → Nat) (alloc : Nat → Option (List Float32)) :
    (NoiseMap.mk 5 0 0 none 0 0).Valid ∧
    (NoiseMap.mk 5 0 0 none 0 0).GetBorderValue = 5 ∧
    (NoiseMap.mk 5 0 0 none 0 0).GetValue 3 4 = 5 ∧
    (NoiseMap.assign CalcStride CalcMinMemUsage alloc
      (fun _ => NoiseMap.mk 5 0 0 none 0 0) 0 0).thrown = none ∧
    ((NoiseMap.assign CalcStride CalcMinMemUsage alloc
      (fun _ => NoiseMap.mk 5 0 0 none 0 0) 0 0).self 0).GetBorderValue = 0 ∧
    ((NoiseMap.assign CalcStride CalcMinMemUsage alloc
      (fun _ => NoiseMap.mk 5 0 0 none 0 0) 0 0).self 0).GetValue 3 4 = 0 ∧
    (NoiseMap.assign CalcStride CalcMinMemUsage alloc
      (fun _ => NoiseMap.mk 5 0 0 none 0 0) 0 0).self 0 ≠ NoiseMap.mk 5 0 0 none 0 0 := by
  have hsize : (NoiseMap.mk 5 0 0 none 0 0).SetSize CalcStride CalcMinMemUsage alloc 0 0 =
      ⟨none, NoiseMap.mk 0 0 0 none 0 0⟩ := by
    simp [NoiseMap.SetSize, RASTER_MAX_WIDTH, RASTER_MAX_HEIGHT,
      NoiseMap.DeleteNoiseMapAndReset, NoiseMap.InitObj]
  have hres : NoiseMap.assign CalcStride CalcMinMemUsage alloc
      (fun _ => NoiseMap.mk 5 0 0 none 0 0) 0 0 =
      ⟨none, Function.update (fun _ => NoiseMap.mk 5 0 0 none 0 0) 0
        (NoiseMap.mk 0 0 0 none 0 0)⟩ := by
    simp only [NoiseMap.assign, NoiseMap.CopyNoiseMap, NoiseMap.GetWidth, NoiseMap.GetHeight,
      hsize, Function.update_same, Int.toNat_zero, NoiseMap.copySlabLoop,
      Function.update_idem]
  rw [hres]
  simp only [Function.update_same]
  refine ⟨?_, rfl, rfl, trivial, rfl, rfl, ?_⟩
  · simp [NoiseMap.Valid, RASTER_MAX_WIDTH, RASTER_MAX_HEIGHT]
  · simp

/-! ## Writers: little-endian bytes and the width of a line -/

/-- Masking a value with `k` one bits that start at the bit `s` and shifting
the result right by `s` gives the `k` bits of the value from the bit `s`
on. -/
lemma and_mask_shiftRight (value k s : Nat) :
    (value &&& ((2 ^ k - 1) <<< s)) >>> s = value / 2 ^ s % 2 ^ k := by
  apply Nat.eq_of_testBit_eq
  intro i
  rw [← Nat.shiftRight_eq_div_pow]
  simp only [Nat.testBit_shiftRight, Nat.testBit_and, Nat.testBit_shiftLeft,
    Nat.testBit_two_pow_sub_one, Nat.testBit_mod_two_pow]
  have h1 : s + i ≥ s := Nat.le_add_right _ _
  have h2 : s + i - s = i := by omega
  simp only [h1, h2, decide_True, Bool.true_and]
  exact Bool.and_comm _ _

/-- The bytes that `UnpackLittle32` writes. -/
lemma UnpackLittle32_bytes (x0 x1 x2 x3 : Fin 256) (rest : List (Fin 256)) (n : Nat) :
    UnpackLittle32 (x0 :: x1 :: x2 :: x3 :: rest) n =
      castUInt8 (n % 256) :: castUInt8 (n / 256 % 256) :: castUInt8 (n / 65536 % 256) ::
        castUInt8 (n / 16777216 % 256) :: rest := by
  have e0 : n &&& 0x000000ff = n % 256 := Nat.and_pow_two_sub_one_eq_mod n 8
  have e1 : (n &&& 0x0000ff00) >>> 8 = n / 256 % 256 := and_mask_shiftRight n 8 8
  have e2 : (n &&& 0x00ff0000) >>> 16 = n / 65536 % 256 := and_mask_shiftRight n 8 16
  have e3 : (n &&& 0xff000000) >>> 24 = n / 16777216 % 256 := and_mask_shiftRight n 8 24
  simp only [UnpackLittle32, e0, e1, e2, e3]
  rfl

/-- The bytes that `UnpackLittle16` writes. -/
lemma UnpackLittle16_bytes (x0 x1 : Fin 256) (rest : List (Fin 256)) (n : Nat) :
    UnpackLittle16 (x0 :: x1 :: rest) n =
      castUInt8 (n % 256) :: castUInt8 (n / 256 % 256) :: rest := by
  have e0 : n &&& 0x00ff = n % 256 := Nat.and_pow_two_sub_one_eq_mod n 8
  have e1 : (n &&& 0xff00) >>> 8 = n / 256 % 256 := and_mask_shiftRight n 8 8
  simp only [UnpackLittle16, e0, e1]
  rfl

/-- C21: `UnpackLittle32` and `UnpackLittle16` are little-endian encoders. For
every 32-bit unsigned `n` and every array of at least four bytes, the four
bytes written satisfy
`bytes[0] + 256 * bytes[1] + 65536 * bytes[2] + 16777216 * bytes[3] = n`; for
every 16-bit unsigned `m` and every array of at least two bytes, the two
bytes written satisfy `bytes[0] + 256 * bytes[1] = m`. The bytes that follow
and the length of the array are unchanged. -/
theorem UnpackLittle_little_endian (bytes : List (Fin 256)) (n m : Nat)
    (hlen : 4 ≤ bytes.length) (hn : n < 2 ^ 32) (hm : m < 2 ^ 16) :
    (((UnpackLittle32 bytes n).getD 0 0).val + 256 * ((UnpackLittle32 bytes n).getD 1 0).val +
        65536 * ((UnpackLittle32 bytes n).getD 2 0).val +
        16777216 * ((UnpackLittle32 bytes n).getD 3 0).val = n ∧
      (UnpackLittle32 bytes n).length = bytes.length ∧
      (UnpackLittle32 bytes n).drop 4 = bytes.drop 4) ∧
    (((UnpackLittle16 bytes m).getD 0 0).val + 256 * ((UnpackLittle16 bytes m).getD 1 0).val =
        m ∧
      (UnpackLittle16 bytes m).length = bytes.length ∧
      (UnpackLittle16 bytes m).drop 2 = bytes.drop 2) := by
  match bytes, hlen with
  | x0 :: x1 :: x2 :: x3 :: rest, _ =>
    rw [UnpackLittle32_bytes, UnpackLittle16_bytes]
    simp only [List.getD_cons_zero, List.getD_cons_succ, castUInt8, List.length_cons,
      List.drop_succ_cons, List.drop_zero, and_true, true_and]
    constructor <;> omega

/-- Witness of C21: the value `0x12345678` is unpacked into the bytes `0x78`,
`0x56`, `0x34`, `0x12`, and the value `0x1234` into the bytes `0x34`,
`0x12`. -/
theorem UnpackLittle_little_endian_witness :
    UnpackLittle32 [0, 0, 0, 0] 0x12345678 = [0x78, 0x56, 0x34, 0x12] ∧
    UnpackLittle16 [0, 0, 0, 0] 0x1234 = [0x34, 0x12, 0, 0] ∧
    0x78 + 256 * 0x56 + 65536 * 0x34 + 16777216 * 0x12 = 0x12345678 ∧
    ((UnpackLittle32 [0, 0, 0, 0] 0x12345678).getD 0 0).val +
      256 * ((UnpackLittle32 [0, 0, 0, 0] 0x12345678).getD 1 0).val +
      65536 * ((UnpackLittle32 [0, 0, 0, 0] 0x12345678).getD 2 0).val +
      16777216 * ((UnpackLittle32 [0, 0, 0, 0] 0x12345678).getD 3 0).val = 0x12345678 ∧
    ((UnpackLittle16 [0, 0, 0, 0] 0x1234).getD 0 0).val +
      256 * ((UnpackLittle16 [0, 0, 0, 0] 0x1234).getD 1 0).val = 0x1234 := by
  have h := UnpackLittle_little_endian [0, 0, 0, 0] 0x12345678 0x1234 (by decide)
    (by decide) (by decide)
  exact ⟨by decide, by decide, by decide, h.1.1, h.2.1⟩

/-- Clearing the two low bits of a natural number rounds it down to a multiple
of four. -/
lemma ldiff_three (value : Nat) : Nat.ldiff value 3 = value / 4 * 4 := by
  apply Nat.eq_of_testBit_eq
  intro i
  have e3 : (3 : Nat) = 2 ^ 2 - 1 := rfl
  have e4 : value / 4 * 4 = (value >>> 2) <<< 2 := by
    rw [Nat.shiftLeft_eq, Nat.shiftRight_eq_div_pow]
  rw [Nat.testBit_ldiff, e4, e3, Nat.testBit_two_pow_sub_one, Nat.testBit_shiftLeft,
    Nat.testBit_shiftRight]
  by_cases hi : i < 2
  · have h2 : ¬ i ≥ 2 := by omega
    simp [hi, h2]
  · have h2 : i ≥ 2 := by omega
    have h3 : 2 + (i - 2) = i := by omega
    simp [hi, h2, h3]

/-- The value of `WriterBMP::CalcWidthByteCount` for a width that is not
negative: three times the width plus three, rounded down to a multiple of
four. -/
lemma CalcWidthByteCount_eq (width : Int) (h : 0 ≤ width) :
    WriterBMP.CalcWidthByteCount width = (width * 3 + 3) / 4 * 4 := by
  obtain ⟨w, rfl⟩ := Int.eq_ofNat_of_zero_le h
  have e1 : ((w : Int) * 3 + 3) = ((w * 3 + 3 : Nat) : Int) := by push_cast; rfl
  have e2 : (~~~(3 : Int)) = Int.negSucc 3 := rfl
  have e3 : Int.land ((w * 3 + 3 : Nat) : Int) (Int.negSucc 3) =
      ((Nat.ldiff (w * 3 + 3) 3 : Nat) : Int) := rfl
  simp only [WriterBMP.CalcWidthByteCount]
  rw [e1, e2, e3, ldiff_three]
  push_cast
  rfl

/-- C22: for every raster width `w` with `0 <= w <= 32767`,
`WriterBMP::CalcWidthByteCount (w)` is the least multiple of 4 that is at
least `3 * w`: it is a multiple of 4, it is at least `3 * w`, and every
multiple of 4 that is at least `3 * w` is at least as large. It fits in a
32-bit `int`. -/
theorem CalcWidthByteCount_least_multiple (width : Int)
    (h : 0 ≤ width ∧ width ≤ RASTER_MAX_WIDTH) :
    4 ∣ WriterBMP.CalcWidthByteCount width ∧
    3 * width ≤ WriterBMP.CalcWidthByteCount width ∧
    (∀ m : Int, 4 ∣ m → 3 * width ≤ m → WriterBMP.CalcWidthByteCount width ≤ m) ∧
    WriterBMP.CalcWidthByteCount width < 2 ^ 31 := by
  simp only [RASTER_MAX_WIDTH] at h
  rw [CalcWidthByteCount_eq width h.1]
  refine ⟨Dvd.intro_left _ rfl, by omega, ?_, by omega⟩
  intro m hm hle
  obtain ⟨k, rfl⟩ := hm
  omega

/-- Witness of C22: a line of 5 pixels takes 16 bytes, a line of 4 pixels 12
bytes. -/
theorem CalcWidthByteCount_least_multiple_witness :
    WriterBMP.CalcWidthByteCount 5 = 16 ∧ WriterBMP.CalcWidthByteCount 4 = 12 ∧
    4 ∣ WriterBMP.CalcWidthByteCount 5 ∧ 3 * 5 ≤ WriterBMP.CalcWidthByteCount 5 := by
  have h5 := CalcWidthByteCount_least_multiple 5 (by decide)
  have h4 := CalcWidthByteCount_least_multiple 4 (by decide)
  have e5 : WriterBMP.CalcWidthByteCount 5 = 16 := by
    obtain ⟨k, hk⟩ := h5.1
    have hle := h5.2.2.1 16 (by decide) (by decide)
    have hge := h5.2.1
    omega
  have e4 : WriterBMP.CalcWidthByteCount 4 = 12 := by
    obtain ⟨k, hk⟩ := h4.1
    have hle := h4.2.2.1 12 (by decide) (by decide)
    have hge := h4.2.1
    omega
  exact ⟨e5, e4, h5.1, h5.2.1⟩

/-! ## Renderers: the neighbours of a point -/

/-- The neighbours that `RendererImage::Render` reads lie inside the source
noise map when the map has at least two columns and at least two rows. -/
lemma RendererImage_neighbours_inside (isWrapEnabled : Bool) (width height x y : Int)
    (hw : 2 ≤ width) (hh : 2 ≤ height) (hx : 0 ≤ x ∧ x < width) (hy : 0 ≤ y ∧ y < height) :
    (0 ≤ x + (RendererImage.neighbourOffsets isWrapEnabled width height x y).xLeftOffset ∧
      x + (RendererImage.neighbourOffsets isWrapEnabled width height x y).xLeftOffset < width) ∧
    (0 ≤ x + (RendererImage.neighbourOffsets isWrapEnabled width height x y).xRightOffset ∧
      x + (RendererImage.neighbourOffsets isWrapEnabled width height x y).xRightOffset <
        width) ∧
    (0 ≤ y + (RendererImage.neighbourOffsets isWrapEnabled width height x y).yDownOffset ∧
      y + (RendererImage.neighbourOffsets isWrapEnabled width height x y).yDownOffset <
        height) ∧
    (0 ≤ y + (RendererImage.neighbourOffsets isWrapEnabled width height x y).yUpOffset ∧
      y + (RendererImage.neighbourOffsets isWrapEnabled width height x y).yUpOffset <
        height) := by
  cases isWrapEnabled <;>
    simp only [RendererImage.neighbourOffsets, Bool.false_eq_true, if_false, if_true] <;>
    split_ifs <;> simp only <;> omega

/-- In a source noise map with one column, `RendererImage::Render` reads the
right neighbour at the column 1, whatever the wrap flag, the height and the
row; in a source noise map with one row, it reads the up neighbour in the row
1, whatever the wrap flag, the width and the column. -/
lemma RendererImage_neighbours_one (isWrapEnabled : Bool) (size i : Int) :
    0 + (RendererImage.neighbourOffsets isWrapEnabled 1 size 0 i).xRightOffset = 1 ∧
    0 + (RendererImage.neighbourOffsets isWrapEnabled size 1 i 0).yUpOffset = 1 := by
  cases isWrapEnabled <;>
    simp [RendererImage.neighbourOffsets]

/-- The right and up neighbours that `RendererNormalMap::Render` reads lie
inside the source noise map for every width and height from 1 on: this
renderer tests for the last column and the last row first. -/
lemma RendererNormalMap_neighbours_inside (isWrapEnabled : Bool) (width height x y : Int)
    (hx : 0 ≤ x ∧ x < width) (hy : 0 ≤ y ∧ y < height) :
    (0 ≤ x + (RendererNormalMap.neighbourOffsets isWrapEnabled width height x y).1 ∧
      x + (RendererNormalMap.neighbourOffsets isWrapEnabled width height x y).1 < width) ∧
    (0 ≤ y + (RendererNormalMap.neighbourOffsets isWrapEnabled width height x y).2 ∧
      y + (RendererNormalMap.neighbourOffsets isWrapEnabled width height x y).2 < height) := by
  cases isWrapEnabled <;>
    simp only [RendererNormalMap.neighbourOffsets, Bool.false_eq_true, if_false, if_true] <;>
    split_ifs <;> omega

/-- C23, at the input where the code leaves the map: a source noise map of
width 1 and height 1 passes the guard of `RendererImage::Render`, and at its
only pixel `(0, 0)`, with the wrap flag off and with the wrap flag on, the
right neighbour is read at the column `0 + xRightOffset = 1`, which is not
below the width, and the up neighbour in the row `0 + yUpOffset = 1`, which
is not below the height. -/
theorem RendererImage_neighbours_outside_one_by_one :
    RendererImage.renderThrows true true 1 1 2 = false ∧
    (RendererImage.neighbourOffsets false 1 1 0 0 =
        { xLeftOffset := 0, xRightOffset := 1, yDownOffset := 0, yUpOffset := 1 } ∧
      ¬ (0 + (RendererImage.neighbourOffsets false 1 1 0 0).xRightOffset < 1) ∧
      ¬ (0 + (RendererImage.neighbourOffsets false 1 1 0 0).yUpOffset < 1)) ∧
    (RendererImage.neighbourOffsets true 1 1 0 0 =
        { xLeftOffset := 0, xRightOffset := 1, yDownOffset := 0, yUpOffset := 1 } ∧
      ¬ (0 + (RendererImage.neighbourOffsets true 1 1 0 0).xRightOffset < 1) ∧
      ¬ (0 + (RendererImage.neighbourOffsets true 1 1 0 0).yUpOffset < 1)) := by
  decide

end utils

end noise
